import Mathlib

/-!
Verification of the `Program` module of a typed register-machine program
representation (interfaces, records, functions) and its evaluator.

The `Program` type, its builder operations (`add_interface`, `add_record`,
`add_function`), the reserved-keyword table, `evaluate`, `Display` and the
top-level parse pipeline are translated from
`src/console/program/src/program/mod.rs`.  Supporting components that live
outside the provided sources (identifiers, the type model, `RegisterTypes`,
`Stack`, declaration renderers and per-declaration parsers) are modelled
from the specification, as marked on each definition.
-/

namespace Snark

/-- Modelled from the spec: an identifier is a printable name with
byte-exact equality; we represent it by its printed form. -/
abbrev Identifier : Type := String

/-- Modelled from the spec: the fixed enumeration of literal kinds
(`address, boolean, field, group, i8…i128, u8…u128, scalar, string`). -/
inductive LiteralType where
  | address | boolean | field | group
  | i8 | i16 | i32 | i64 | i128
  | u8 | u16 | u32 | u64 | u128
  | scalar | string
deriving DecidableEq

/-- Modelled from the spec: `PlaintextType` is `Literal(kind)` or
`Interface(id)` referencing a declared interface by name. -/
inductive PlaintextType where
  | literal (k : LiteralType)
  | interface (id : Identifier)
deriving DecidableEq

/-- Modelled from the spec: an `EntryType` is a `PlaintextType` tagged with a
privacy mode (constant / public / private). -/
inductive EntryType where
  | constant (t : PlaintextType)
  | publicT (t : PlaintextType)
  | privateT (t : PlaintextType)
deriving DecidableEq

/-- Modelled from the spec: a `ValueType` is a mode-tagged plaintext type or
`Record(id)` referring to a declared record. -/
inductive ValueType where
  | constant (t : PlaintextType)
  | publicT (t : PlaintextType)
  | privateT (t : PlaintextType)
  | record (id : Identifier)
deriving DecidableEq

/-- Modelled from the spec: `RegisterType` is `Plaintext(PlaintextType)` or
`Record(id)`; it is a `ValueType` with the mode discarded. -/
inductive RegisterType where
  | plaintext (t : PlaintextType)
  | record (id : Identifier)
deriving DecidableEq

/-- Modelled from the spec: classifying a `ValueType` by discarding its mode
yields a `RegisterType`. -/
def ValueType.toRegisterType : ValueType → RegisterType
  | .constant t => .plaintext t
  | .publicT t => .plaintext t
  | .privateT t => .plaintext t
  | .record id => .record id

/-- Modelled from the spec: a register is a bare locator index or a member
projection into a locator along a path of field names. -/
inductive Register where
  | locator (n : Nat)
  | member (n : Nat) (path : List Identifier)
deriving DecidableEq

/-- Modelled from the spec: the locator index addressed by a register. -/
def Register.loc : Register → Nat
  | .locator n => n
  | .member n _ => n

/-- Modelled from the spec: a fully-materialized literal constant.  The
arithmetic value representation is an external capability of the core; we
model numeric literals as a kind together with a natural number, plus the
two boolean literals. -/
inductive Literal where
  | num (k : LiteralType) (n : Nat)
  | boolean (b : Bool)
deriving DecidableEq

/-- Modelled from the spec: every literal has exactly one kind. -/
def Literal.kind : Literal → LiteralType
  | .num k _ => k
  | .boolean _ => .boolean

/-- Modelled from the spec: an operand is a literal constant or a register. -/
inductive Operand where
  | literal (l : Literal)
  | register (r : Register)
deriving DecidableEq

/-- Modelled from the spec: a runtime plaintext value is an
interface-structured tree of literals. -/
inductive Plaintext where
  | literal (l : Literal)
  | struct (members : List (Identifier × Plaintext))

/-- Modelled from the spec: a runtime record value carries its entries as
named plaintext values. -/
structure RecordValue where
  entries : List (Identifier × Plaintext)

/-- Modelled from the spec: the untagged runtime carrier of register
contents: a plaintext or a record. -/
inductive RegisterValue where
  | plaintext (p : Plaintext)
  | record (r : RecordValue)

/-- A mode-stamped output value (`Value` in the source): constant, public or
private plaintext, or a record. -/
inductive Value where
  | constant (p : Plaintext)
  | publicT (p : Plaintext)
  | privateT (p : Plaintext)
  | record (r : RecordValue)

/-- Modelled from the spec: an interface is a named ordered sequence of
`(field_name, PlaintextType)` members. -/
structure Interface where
  name : Identifier
  members : List (Identifier × PlaintextType)
deriving DecidableEq

/-- Modelled from the spec: a record type is a named ordered sequence of
`(entry_name, EntryType)` entries. -/
structure RecordType where
  name : Identifier
  entries : List (Identifier × EntryType)
deriving DecidableEq

/-- Modelled from the spec: instructions are an external capability with
operands, a destination register, an output-type rule and an execution
effect; the core composes those four operations and never matches on the
opcode.  We model the single opcode `add` exercised by the specification's
scenarios. -/
inductive Instruction where
  | add (a b : Operand) (dst : Register)
deriving DecidableEq

/-- Modelled from the spec: the operands of an instruction. -/
def Instruction.operands : Instruction → List Operand
  | .add a b _ => [a, b]

/-- Modelled from the spec: the destination register of an instruction. -/
def Instruction.destination : Instruction → Register
  | .add _ _ d => d

/-- Modelled from the spec: a function is a name, ordered input
declarations, an ordered instruction list and ordered output
declarations. -/
structure FunctionDef where
  name : Identifier
  inputs : List (Register × ValueType)
  instructions : List Instruction
  outputs : List (Register × ValueType)
deriving DecidableEq

/-- A program declaration tag (`ProgramDefinition` in the source). -/
inductive ProgramDefinition where
  | interface
  | record
  | function
deriving DecidableEq

/-- Association-list lookup, first match; the model of `IndexMap::get`. -/
def lookupIM {α : Type} : List (Identifier × α) → Identifier → Option α
  | [], _ => none
  | (k, v) :: rest, key => if k = key then some v else lookupIM rest key

/-- The model of `IndexMap::contains_key`. -/
def containsIM {α : Type} (m : List (Identifier × α)) (key : Identifier) : Bool :=
  (lookupIM m key).isSome

/-- The model of `IndexMap::insert`: replace in place if the key is present
(returning the old value), otherwise append at the end preserving insertion
order. -/
def insertIM {α : Type} : List (Identifier × α) → Identifier → α → Option α × List (Identifier × α)
  | [], key, v => (none, [(key, v)])
  | (k, w) :: rest, key, v =>
      if k = key then (some w, (k, v) :: rest)
      else
        match insertIM rest key v with
        | (old, rest') => (old, (k, w) :: rest')

/-- Modelled from the spec: the per-function static register table with
input, destination and output classifications. -/
structure RegisterTypes where
  inputs : List (Nat × ValueType)
  destinations : List (Nat × RegisterType)
  outputs : List (Register × ValueType)
deriving DecidableEq

/-- Modelled from the spec: an empty register table. -/
def RegisterTypes.new : RegisterTypes := ⟨[], [], []⟩

/-- Modelled from the spec: `add_input` requires the register to be a
locator equal to the current number of inputs (dense monotone from 0) and
records its value type. -/
def RegisterTypes.add_input (rts : RegisterTypes) (r : Register) (vt : ValueType) :
    Except String RegisterTypes :=
  match r with
  | .locator n =>
      if n = rts.inputs.length then
        .ok { rts with inputs := rts.inputs ++ [(n, vt)] }
      else .error "Input register is out of order."
  | .member _ _ => .error "Input register must be a locator."

/-- Modelled from the spec: `add_destination` requires the register to be a
locator equal to `|inputs| + |destinations|` and never a member. -/
def RegisterTypes.add_destination (rts : RegisterTypes) (r : Register) (rt : RegisterType) :
    Except String RegisterTypes :=
  match r with
  | .locator n =>
      if n = rts.inputs.length + rts.destinations.length then
        .ok { rts with destinations := rts.destinations ++ [(n, rt)] }
      else .error "Destination register is out of order."
  | .member _ _ => .error "Destination register must be a locator."

/-- Modelled from the spec: `add_output` records an output declaration; no
monotonicity constraint applies and member paths are allowed. -/
def RegisterTypes.add_output (rts : RegisterTypes) (r : Register) (vt : ValueType) :
    RegisterTypes :=
  { rts with outputs := rts.outputs ++ [(r, vt)] }

/-- Modelled from the spec: `is_input` tests whether the register's locator
was declared as an input. -/
def RegisterTypes.is_input (rts : RegisterTypes) (r : Register) : Bool :=
  rts.inputs.any (fun pr => pr.1 = r.loc)

/-- Modelled from the spec: the declared outputs in order. -/
def RegisterTypes.to_outputs (rts : RegisterTypes) : List (Register × ValueType) :=
  rts.outputs

/-- Natural-number keyed association-list lookup, first match. -/
def lookupNat {α : Type} : List (Nat × α) → Nat → Option α
  | [], _ => none
  | (k, v) :: rest, key => if k = key then some v else lookupNat rest key

/-- The program: insertion-ordered maps of identifiers to declaration tags,
and of declared interfaces, record types, functions and per-function
register tables, as in the source `Program` struct. -/
structure Program where
  identifiers : List (Identifier × ProgramDefinition)
  interfaces : List (Identifier × Interface)
  records : List (Identifier × RecordType)
  functions : List (Identifier × FunctionDef)
  function_registers : List (Identifier × RegisterTypes)
deriving DecidableEq

/-- `Program::new`: the empty program. -/
def Program.new : Program := ⟨[], [], [], [], []⟩

/-- The source's fixed table of reserved keywords, transcribed from
`Program::is_reserved_name`. -/
def KEYWORDS : List String :=
  [ "const", "constant", "public", "private",
    "address", "boolean", "field", "group",
    "i8", "i16", "i32", "i64", "i128",
    "u8", "u16", "u32", "u64", "u128",
    "scalar", "string",
    "true", "false",
    "input", "output", "as", "into",
    "function", "interface", "record", "program", "global",
    "return", "break", "assert", "continue", "let", "if", "else",
    "while", "for", "switch", "case", "default", "match", "enum",
    "struct", "union", "trait", "impl", "type" ]

/-- `Program::is_reserved_name`: true when the printed form of the name
equals one of the fixed keywords.  The source method ignores its receiver;
we define it as a plain function. -/
def is_reserved_name (name : Identifier) : Bool :=
  KEYWORDS.any (fun keyword => keyword = name)

/-- `Program::is_unique_name`: true when the name is not already a key of
the `identifiers` map. -/
def Program.is_unique_name (p : Program) (name : Identifier) : Bool :=
  !(containsIM p.identifiers name)

/-- `Program::contains_interface`. -/
def Program.contains_interface (p : Program) (name : Identifier) : Bool :=
  containsIM p.interfaces name

/-- `Program::contains_record`. -/
def Program.contains_record (p : Program) (name : Identifier) : Bool :=
  containsIM p.records name

/-- `Program::contains_function`. -/
def Program.contains_function (p : Program) (name : Identifier) : Bool :=
  containsIM p.functions name

/-- `Program::get_interface`. -/
def Program.get_interface (p : Program) (name : Identifier) : Except String Interface :=
  match lookupIM p.interfaces name with
  | some i => .ok i
  | none => .error "Interface is not defined."

/-- `Program::get_record`. -/
def Program.get_record (p : Program) (name : Identifier) : Except String RecordType :=
  match lookupIM p.records name with
  | some r => .ok r
  | none => .error "Record is not defined."

/-- `Program::get_function`. -/
def Program.get_function (p : Program) (name : Identifier) : Except String FunctionDef :=
  match lookupIM p.functions name with
  | some f => .ok f
  | none => .error "Function is not defined."

/-- Modelled from the spec: walking a member path through the program's
interface structure; every intermediate type must be an interface that
resolves, and projection into a record register type is rejected. -/
def walkPath (p : Program) : RegisterType → List Identifier → Except String RegisterType
  | rt, [] => .ok rt
  | .plaintext (.interface id), f :: fs =>
      match lookupIM p.interfaces id with
      | some iface =>
          match lookupIM iface.members f with
          | some t => walkPath p (.plaintext t) fs
          | none => .error "Member path does not resolve."
      | none => .error "Interface in member path is not defined."
  | .plaintext (.literal _), _ :: _ => .error "Cannot project into a literal."
  | .record _, _ :: _ => .error "Cannot project into a record."

/-- Modelled from the spec: `RegisterTypes::get_type` fetches a locator's
type from the inputs (mode dropped) and then the destinations, and resolves
member paths through the program's interfaces. -/
def RegisterTypes.get_type (rts : RegisterTypes) (p : Program) (r : Register) :
    Except String RegisterType :=
  match r with
  | .locator n =>
      match lookupNat rts.inputs n with
      | some vt => .ok vt.toRegisterType
      | none =>
          match lookupNat rts.destinations n with
          | some rt => .ok rt
          | none => .error "Register is not defined."
  | .member n path =>
      match lookupNat rts.inputs n with
      | some vt => walkPath p vt.toRegisterType path
      | none =>
          match lookupNat rts.destinations n with
          | some rt => walkPath p rt path
          | none => .error "Register is not defined."

/-- The member check loop of `Program::add_interface`: each member name must
not be reserved and each interface member type must already be defined,
checked in order with the first failure reported. -/
def checkInterfaceMembers (p : Program) : List (Identifier × PlaintextType) → Option String
  | [] => none
  | (id, t) :: rest =>
      if is_reserved_name id then some "is a reserved keyword."
      else
        match t with
        | .literal _ => checkInterfaceMembers p rest
        | .interface mid =>
            if containsIM p.interfaces mid then checkInterfaceMembers p rest
            else some "is not defined."

/-- `Program::add_interface`, modelling `&mut self` as a returned program:
the pair holds the `Result` and the state of the program after the call. -/
def Program.add_interface (p : Program) (i : Interface) : Except String Unit × Program :=
  if !(p.is_unique_name i.name) then (.error "is already in use.", p)
  else if is_reserved_name i.name then (.error "is a reserved keyword.", p)
  else
    match checkInterfaceMembers p i.members with
    | some e => (.error e, p)
    | none =>
        let (old1, ids') := insertIM p.identifiers i.name .interface
        let p1 := { p with identifiers := ids' }
        if old1.isSome then (.error "already exists in the program.", p1)
        else
          let (old2, ifs') := insertIM p1.interfaces i.name i
          let p2 := { p1 with interfaces := ifs' }
          if old2.isSome then (.error "already exists in the program.", p2)
          else (.ok (), p2)

/-- The entry check loop of `Program::add_record`: each entry name must not
be reserved and the plaintext type inside each mode-tagged entry type must
already be defined. -/
def checkRecordEntries (p : Program) : List (Identifier × EntryType) → Option String
  | [] => none
  | (id, et) :: rest =>
      if is_reserved_name id then some "is a reserved keyword."
      else
        match et with
        | .constant t | .publicT t | .privateT t =>
            match t with
            | .literal _ => checkRecordEntries p rest
            | .interface mid =>
                if containsIM p.interfaces mid then checkRecordEntries p rest
                else some "is not defined."

/-- `Program::add_record`, modelling `&mut self` as a returned program. -/
def Program.add_record (p : Program) (r : RecordType) : Except String Unit × Program :=
  if !(p.is_unique_name r.name) then (.error "is already in use.", p)
  else if is_reserved_name r.name then (.error "is a reserved keyword.", p)
  else
    match checkRecordEntries p r.entries with
    | some e => (.error e, p)
    | none =>
        let (old1, ids') := insertIM p.identifiers r.name .record
        let p1 := { p with identifiers := ids' }
        if old1.isSome then (.error "already exists in the program.", p1)
        else
          let (old2, rcs') := insertIM p1.records r.name r
          let p2 := { p1 with records := rcs' }
          if old2.isSome then (.error "already exists in the program.", p2)
          else (.ok (), p2)

/-- The value-type existence check shared by steps 1 and 3 of
`Program::add_function`: an interface inside a mode-tagged plaintext type
must be a declared interface and a record value type must name a declared
record. -/
def checkValueTypeDefined (p : Program) (vt : ValueType) : Option String :=
  match vt with
  | .constant t | .publicT t | .privateT t =>
      match t with
      | .literal _ => none
      | .interface id =>
          if containsIM p.interfaces id then none else some "Interface is not defined."
  | .record id =>
      if containsIM p.records id then none else some "Record is not defined."

/-- Step 1 of `Program::add_function`: check each input's type exists and
insert the input register. -/
def addInputs (p : Program) : RegisterTypes → List (Register × ValueType) →
    Except String RegisterTypes
  | rts, [] => .ok rts
  | rts, (r, vt) :: rest =>
      match checkValueTypeDefined p vt with
      | some e => .error e
      | none =>
          match rts.add_input r vt with
          | .error e => .error e
          | .ok rts' => addInputs p rts' rest

/-- The operand-type loop of step 2 of `Program::add_function`: a literal
operand contributes the plaintext type of its kind, a register operand its
statically recorded register type. -/
def operandTypes (p : Program) (rts : RegisterTypes) : List Operand →
    Except String (List RegisterType)
  | [] => .ok []
  | .literal lit :: rest =>
      match operandTypes p rts rest with
      | .error e => .error e
      | .ok ts => .ok (.plaintext (.literal lit.kind) :: ts)
  | .register r :: rest =>
      match rts.get_type p r with
      | .error e => .error e
      | .ok t =>
          match operandTypes p rts rest with
          | .error e => .error e
          | .ok ts => .ok (t :: ts)

/-- Modelled from the spec: the external output-type rule of the `add`
opcode — both operand types must agree and be literal plaintext types, and
the destination carries the same type. -/
def Instruction.output_type : Instruction → List RegisterType → Except String RegisterType
  | .add _ _ _, [t1, t2] =>
      if t1 = t2 then
        match t1 with
        | .plaintext (.literal _) => .ok t1
        | _ => .error "Operands of add must have literal types."
      else .error "Operands of add must have the same type."
  | .add _ _ _, _ => .error "Instruction operand arity mismatch."

/-- Step 2 of `Program::add_function`: compute each instruction's operand
types, obtain the destination type from the instruction's output-type rule,
and insert the destination register, which must be a locator. -/
def addInstructions (p : Program) : RegisterTypes → List Instruction →
    Except String RegisterTypes
  | rts, [] => .ok rts
  | rts, i :: rest =>
      match operandTypes p rts i.operands with
      | .error e => .error e
      | .ok tys =>
          match i.output_type tys with
          | .error e => .error e
          | .ok dt =>
              match i.destination with
              | .locator n =>
                  match rts.add_destination (.locator n) dt with
                  | .error e => .error e
                  | .ok rts' => addInstructions p rts' rest
              | .member _ _ => .error "Destination register must be a locator."

/-- The output type comparison of `Program::add_function` (step 3): the
statically computed register type must equal the declared value type with
its mode dropped, and any other pairing is an error. -/
def checkOutputType (rt : RegisterType) (vt : ValueType) : Except String Unit :=
  match rt, vt with
  | .plaintext a, .constant b =>
      if a = b then .ok () else .error "Output has an incorrect type."
  | .plaintext a, .publicT b =>
      if a = b then .ok () else .error "Output has an incorrect type."
  | .plaintext a, .privateT b =>
      if a = b then .ok () else .error "Output has an incorrect type."
  | .record a, .record b =>
      if a = b then .ok () else .error "Output has an incorrect type."
  | _, _ => .error "Output does not match the expected output register type."

/-- Step 3 of `Program::add_function`: per output, emit the non-fatal
input-register diagnostic, compute the register type, check the declared
type exists, compare the two, and insert the output register.  The second
component collects the diagnostics printed so far. -/
def addOutputs (p : Program) : RegisterTypes → List String → List (Register × ValueType) →
    Except String RegisterTypes × List String
  | rts, diags, [] => (.ok rts, diags)
  | rts, diags, (r, vt) :: rest =>
      let diags' :=
        if rts.is_input r then
          diags ++ ["Output is an input register, ensure this is intended behavior"]
        else diags
      match rts.get_type p r with
      | .error e => (.error e, diags')
      | .ok rt =>
          match checkValueTypeDefined p vt with
          | some e => (.error e, diags')
          | none =>
              match checkOutputType rt vt with
              | .error e => (.error e, diags')
              | .ok _ => addOutputs p (rts.add_output r vt) diags' rest

/-- `Program::add_function`, modelling `&mut self` as a returned program and
`eprintln!` diagnostics as a returned list of messages. -/
def Program.add_function (p : Program) (f : FunctionDef) :
    (Except String Unit × Program) × List String :=
  if !(p.is_unique_name f.name) then ((.error "is already in use.", p), [])
  else if is_reserved_name f.name then ((.error "is a reserved keyword.", p), [])
  else
    match addInputs p RegisterTypes.new f.inputs with
    | .error e => ((.error e, p), [])
    | .ok rts1 =>
        match addInstructions p rts1 f.instructions with
        | .error e => ((.error e, p), [])
        | .ok rts2 =>
            match addOutputs p rts2 [] f.outputs with
            | (.error e, diags) => ((.error e, p), diags)
            | (.ok rts3, diags) =>
                let (old1, ids') := insertIM p.identifiers f.name .function
                let p1 := { p with identifiers := ids' }
                if old1.isSome then ((.error "already exists in the program.", p1), diags)
                else
                  let (old2, fns') := insertIM p1.functions f.name f
                  let p2 := { p1 with functions := fns' }
                  if old2.isSome then ((.error "already exists in the program.", p2), diags)
                  else
                    let (old3, frs') := insertIM p2.function_registers f.name rts3
                    let p3 := { p2 with function_registers := frs' }
                    if old3.isSome then ((.error "already exists in the program.", p3), diags)
                    else ((.ok (), p3), diags)

mutual

/-- Modelled from the spec: structural matching of a runtime plaintext
value against a plaintext type — leaf literal kinds must match their
declared kind, and structured values must match a declared interface
field-for-field. -/
def matchesPlaintext (p : Program) : Plaintext → PlaintextType → Bool
  | .literal l, .literal k => l.kind = k
  | .struct ms, .interface id =>
      match lookupIM p.interfaces id with
      | some iface => matchesMembers p ms iface.members
      | none => false
  | .literal _, .interface _ => false
  | .struct _, .literal _ => false

/-- Modelled from the spec: member lists match pointwise, with equal counts
and equal field names. -/
def matchesMembers (p : Program) : List (Identifier × Plaintext) →
    List (Identifier × PlaintextType) → Bool
  | [], [] => true
  | (f, v) :: ms, (g, t) :: ts =>
      f = g && matchesPlaintext p v t && matchesMembers p ms ts
  | [], _ :: _ => false
  | _ :: _, [] => false

end

/-- Modelled from the spec: the plaintext type inside a mode-tagged entry
type. -/
def EntryType.inner : EntryType → PlaintextType
  | .constant t => t
  | .publicT t => t
  | .privateT t => t

/-- Modelled from the spec: a record value matches a record type when its
entries match the entry types pointwise with modes ignored. -/
def matchesRecord (p : Program) (r : RecordValue) (rt : RecordType) : Bool :=
  matchesMembers p r.entries (rt.entries.map (fun pr => (pr.1, pr.2.inner)))

/-- Modelled from the spec: `matches_value` on the untagged runtime
carrier — a plaintext against any mode-tagged plaintext type (modes do not
alter acceptance) and a record against its declared record type. -/
def matchesRegisterValue (p : Program) : RegisterValue → ValueType → Bool
  | .plaintext pl, .constant t => matchesPlaintext p pl t
  | .plaintext pl, .publicT t => matchesPlaintext p pl t
  | .plaintext pl, .privateT t => matchesPlaintext p pl t
  | .record r, .record id =>
      match lookupIM p.records id with
      | some rt => matchesRecord p r rt
      | none => false
  | .plaintext _, .record _ => false
  | .record _, .constant _ => false
  | .record _, .publicT _ => false
  | .record _, .privateT _ => false

/-- The mode-stripped runtime carrier of a mode-stamped value. -/
def Value.toRegisterValue : Value → RegisterValue
  | .constant pl => .plaintext pl
  | .publicT pl => .plaintext pl
  | .privateT pl => .plaintext pl
  | .record r => .record r

/-- Modelled from the spec: `Stack::matches_value` on a mode-stamped value
checks its carrier structurally against the value type. -/
def matchesValue (p : Program) (v : Value) (vt : ValueType) : Bool :=
  matchesRegisterValue p v.toRegisterValue vt

/-- Modelled from the spec: the per-evaluation register file — the program,
the function's register table, and an ordered mapping from locators to
runtime values. -/
structure Stack where
  program : Program
  register_types : RegisterTypes
  registers : List (Nat × RegisterValue)

/-- Modelled from the spec: `Stack::store` enforces write-once — it fails if
the locator already holds a value. -/
def Stack.store (s : Stack) (n : Nat) (v : RegisterValue) : Except String Stack :=
  match lookupNat s.registers n with
  | some _ => .error "Register was already assigned."
  | none => .ok { s with registers := s.registers ++ [(n, v)] }

/-- Modelled from the spec: projecting a member path through the structure
of a runtime plaintext value. -/
def projectPlaintext : Plaintext → List Identifier → Except String Plaintext
  | v, [] => .ok v
  | .struct ms, f :: fs =>
      match lookupIM ms f with
      | some v => projectPlaintext v fs
      | none => .error "Member path does not resolve in the value."
  | .literal _, _ :: _ => .error "Cannot project into a literal value."

/-- Modelled from the spec: `Stack::load` — a literal operand becomes a
plaintext, a locator reads the stored value, and a member register projects
through the stored value's structure (record projection is rejected in the
core). -/
def Stack.load (s : Stack) (op : Operand) : Except String RegisterValue :=
  match op with
  | .literal lit => .ok (.plaintext (.literal lit))
  | .register (.locator n) =>
      match lookupNat s.registers n with
      | some v => .ok v
      | none => .error "Register is not assigned."
  | .register (.member n path) =>
      match lookupNat s.registers n with
      | some (.plaintext pl) =>
          match projectPlaintext pl path with
          | .ok v => .ok (.plaintext v)
          | .error e => .error e
      | some (.record _) => .error "Cannot project into a record value."
      | none => .error "Register is not assigned."

/-- Modelled from the spec: `Stack::new` populates every input locator in
order, requiring as many values as declared inputs and that each value
structurally matches its declared value type. -/
def Stack.new (p : Program) (rts : RegisterTypes) (inputs : List RegisterValue) :
    Except String Stack :=
  if rts.inputs.length = inputs.length then
    let rec go (s : Stack) : List (Nat × ValueType) → List RegisterValue → Except String Stack
      | [], _ => .ok s
      | _, [] => .ok s
      | (n, vt) :: decls, v :: vs =>
          if matchesRegisterValue p v vt then
            match s.store n v with
            | .error e => .error e
            | .ok s' => go s' decls vs
          else .error "Input value does not match the declared input type."
    go ⟨p, rts, []⟩ rts.inputs inputs
  else .error "Input arity mismatch."

/-- Modelled from the spec: the external runtime effect of the `add`
opcode — load both operands, require numeric literals of one same kind, and
store their sum at the destination locator. -/
def Instruction.execute (i : Instruction) (s : Stack) : Except String Stack :=
  match i with
  | .add a b dst =>
      match s.load a, s.load b with
      | .ok (.plaintext (.literal (.num k1 n1))), .ok (.plaintext (.literal (.num k2 n2))) =>
          if k1 = k2 then
            match dst with
            | .locator n => s.store n (.plaintext (.literal (.num k1 (n1 + n2))))
            | .member _ _ => .error "Destination register must be a locator."
          else .error "Operands of add must have the same kind."
      | .error e, _ => .error e
      | _, .error e => .error e
      | _, _ => .error "Operands of add must be numeric literals."

/-- Modelled from the spec: `Function::evaluate` threads the instructions
through the stack in order. -/
def FunctionDef.evaluate (f : FunctionDef) (s : Stack) : Except String Stack :=
  let rec go (s : Stack) : List Instruction → Except String Stack
    | [] => .ok s
    | i :: rest =>
        match i.execute s with
        | .error e => .error e
        | .ok s' => go s' rest
  go s f.instructions

/-- The output conversion of `Program::evaluate`: a plaintext register value
is stamped with the declared output mode, a record register value matches a
record declaration, and any other pairing is an error. -/
def outputValue : RegisterValue → ValueType → Except String Value
  | .plaintext pl, .constant _ => .ok (.constant pl)
  | .plaintext pl, .publicT _ => .ok (.publicT pl)
  | .plaintext pl, .privateT _ => .ok (.privateT pl)
  | .record r, .record _ => .ok (.record r)
  | .plaintext _, .record _ => .error "Register value does not match the expected output type."
  | .record _, .constant _ => .error "Register value does not match the expected output type."
  | .record _, .publicT _ => .error "Register value does not match the expected output type."
  | .record _, .privateT _ => .error "Register value does not match the expected output type."

/-- The output-collection loop of `Program::evaluate`: load each output
register, stamp it with its declared mode, and check it against the value
type. -/
def collectOutputs (s : Stack) : List (Register × ValueType) → Except String (List Value)
  | [] => .ok []
  | (r, vt) :: rest =>
      match s.load (.register r) with
      | .error e => .error e
      | .ok rv =>
          match outputValue rv vt with
          | .error e => .error e
          | .ok v =>
              if matchesValue s.program v vt then
                match collectOutputs s rest with
                | .error e => .error e
                | .ok vs => .ok (v :: vs)
              else .error "Output value does not match the value type."

/-- `Program::evaluate`: look up the function, require the declared input
arity, look up the function's registers, build a stack, run the function,
and collect the mode-stamped outputs. -/
def Program.evaluate (p : Program) (function_name : Identifier)
    (inputs : List RegisterValue) : Except String (List Value) :=
  match p.get_function function_name with
  | .error e => .error e
  | .ok f =>
      if f.inputs.length = inputs.length then
        match lookupIM p.function_registers function_name with
        | none => .error "Function is missing its function registers."
        | some rts =>
            match Stack.new p rts inputs with
            | .error e => .error e
            | .ok s0 =>
                match f.evaluate s0 with
                | .error e => .error e
                | .ok s1 => collectOutputs s1 rts.to_outputs
      else .error "Input arity mismatch."

/-- Modelled from the spec: the printed name of each literal kind. -/
def LiteralType.kindName : LiteralType → String
  | .address => "address"
  | .boolean => "boolean"
  | .field => "field"
  | .group => "group"
  | .i8 => "i8"
  | .i16 => "i16"
  | .i32 => "i32"
  | .i64 => "i64"
  | .i128 => "i128"
  | .u8 => "u8"
  | .u16 => "u16"
  | .u32 => "u32"
  | .u64 => "u64"
  | .u128 => "u128"
  | .scalar => "scalar"
  | .string => "string"

/-- Modelled from the spec: the printed name of a plaintext type — the kind
name for literals, the interface name otherwise. -/
def PlaintextType.text : PlaintextType → String
  | .literal k => k.kindName
  | .interface id => id

/-- Modelled from the spec: value types print as `TYPE.MODE` or
`RECORD.record`. -/
def ValueType.text : ValueType → String
  | .constant t => t.text ++ ".constant"
  | .publicT t => t.text ++ ".public"
  | .privateT t => t.text ++ ".private"
  | .record id => id ++ ".record"

/-- Modelled from the spec: entry types print as `TYPE.MODE`. -/
def EntryType.text : EntryType → String
  | .constant t => t.text ++ ".constant"
  | .publicT t => t.text ++ ".public"
  | .privateT t => t.text ++ ".private"

/-- The decimal digit characters. -/
def digitChar : Nat → Char
  | 0 => '0'
  | 1 => '1'
  | 2 => '2'
  | 3 => '3'
  | 4 => '4'
  | 5 => '5'
  | 6 => '6'
  | 7 => '7'
  | 8 => '8'
  | 9 => '9'
  | _ => '?'

/-- The decimal rendering of a natural number, most significant digit
first. -/
def natChars (n : Nat) : List Char :=
  if _h : n < 10 then [digitChar n]
  else natChars (n / 10) ++ [digitChar (n % 10)]
decreasing_by exact Nat.div_lt_self (by omega) (by omega)

/-- Modelled from the spec: registers print as `rN` for locators and
`rN.f1.f2…` for members. -/
def Register.chars : Register → List Char
  | .locator n => 'r' :: natChars n
  | .member n path => 'r' :: natChars n ++ (path.map (fun f => '.' :: f.data)).flatten

/-- Modelled from the spec: a literal operand prints as its value followed
by its kind name, with booleans printed as `true` and `false`. -/
def Literal.chars : Literal → List Char
  | .num k n => natChars n ++ k.kindName.data
  | .boolean true => "true".data
  | .boolean false => "false".data

/-- Modelled from the spec: operands print as the literal or the register. -/
def Operand.chars : Operand → List Char
  | .literal l => l.chars
  | .register r => r.chars

/-- Modelled from the spec: an interface member line. -/
def memberLine (pr : Identifier × PlaintextType) : List Char :=
  "    ".data ++ pr.1.data ++ " as ".data ++ pr.2.text.data ++ ";".data

/-- Modelled from the spec: a record entry line. -/
def entryLine (pr : Identifier × EntryType) : List Char :=
  "    ".data ++ pr.1.data ++ " as ".data ++ pr.2.text.data ++ ";".data

/-- Modelled from the spec: a function input line. -/
def inputLine (pr : Register × ValueType) : List Char :=
  "    input ".data ++ pr.1.chars ++ " as ".data ++ pr.2.text.data ++ ";".data

/-- Modelled from the spec: an instruction line for the `add` opcode. -/
def instrLine : Instruction → List Char
  | .add a b d =>
      "    add ".data ++ a.chars ++ " ".data ++ b.chars ++ " into ".data ++ d.chars ++ ";".data

/-- Modelled from the spec: a function output line. -/
def outputLine (pr : Register × ValueType) : List Char :=
  "    output ".data ++ pr.1.chars ++ " as ".data ++ pr.2.text.data ++ ";".data

/-- Modelled from the spec: the lines of an interface declaration. -/
def Interface.lines (i : Interface) : List (List Char) :=
  ("interface ".data ++ i.name.data ++ ":".data) :: i.members.map memberLine

/-- Modelled from the spec: the lines of a record declaration. -/
def RecordType.lines (r : RecordType) : List (List Char) :=
  ("record ".data ++ r.name.data ++ ":".data) :: r.entries.map entryLine

/-- Modelled from the spec: the lines of a function declaration, inputs
then instructions then outputs. -/
def FunctionDef.lines (f : FunctionDef) : List (List Char) :=
  ("function ".data ++ f.name.data ++ ":".data)
    :: (f.inputs.map inputLine ++ f.instructions.map instrLine ++ f.outputs.map outputLine)

/-- A program declaration: an interface, a record type or a function. -/
inductive Decl where
  | interface (i : Interface)
  | record (r : RecordType)
  | function (f : FunctionDef)
deriving DecidableEq

/-- The lines of a declaration. -/
def Decl.lines : Decl → List (List Char)
  | .interface i => i.lines
  | .record r => r.lines
  | .function f => f.lines

/-- Joining lines with single newline characters. -/
def joinLines : List (List Char) → List Char
  | [] => []
  | [l] => l
  | l :: rest => l ++ '\n' :: joinLines rest

/-- The printed characters of a declaration. -/
def Decl.chars (d : Decl) : List Char := joinLines d.lines

/-- The fold of `impl Display for Program`: print each declaration in
`identifiers` insertion order followed by a blank line, failing like the
source when an identifier does not resolve in its map. -/
def displayFold (p : Program) : List (Identifier × ProgramDefinition) → Except String (List Char)
  | [] => .ok []
  | (id, tag) :: rest =>
      let piece : Except String (List Char) :=
        match tag with
        | .interface =>
            match lookupIM p.interfaces id with
            | some i => .ok (Decl.chars (.interface i) ++ "\n\n".data)
            | none => .error "is not defined."
        | .record =>
            match lookupIM p.records id with
            | some r => .ok (Decl.chars (.record r) ++ "\n\n".data)
            | none => .error "is not defined."
        | .function =>
            match lookupIM p.functions id with
            | some f => .ok (Decl.chars (.function f) ++ "\n\n".data)
            | none => .error "is not defined."
      match piece with
      | .error e => .error e
      | .ok cs =>
          match displayFold p rest with
          | .error e => .error e
          | .ok cs' => .ok (cs ++ cs')

/-- `impl Display for Program`: concatenate the declarations in insertion
order, each followed by a blank line, then remove the last character, as
the source's `program.pop()` does. -/
def Program.display (p : Program) : Except String String :=
  match displayFold p p.identifiers with
  | .error e => .error e
  | .ok cs => .ok ⟨cs.dropLast⟩

/-- Modelled from the spec: the naming alphabet — letters, digits and
underscores. -/
def identChar (c : Char) : Bool := c.isAlpha || c.isDigit || c = '_'

/-- The characters a single token may span: name characters and the dot
used in value types and member registers. -/
def tokChar (c : Char) : Bool := identChar c || c = '.'

/-- Strip an expected literal prefix, returning the remainder. -/
def stripLead : List Char → List Char → Option (List Char)
  | [], l => some l
  | _ :: _, [] => none
  | p :: ps, c :: cs => if c = p then stripLead ps cs else none

/-- Take the maximal token at the head of the input. -/
def takeTok (l : List Char) : List Char × List Char :=
  (l.takeWhile tokChar, l.dropWhile tokChar)

/-- Modelled from the spec: a token is a valid name when it is nonempty,
starts with a letter and contains only name characters. -/
def parseIdentTok (seg : List Char) : Option Identifier :=
  match seg with
  | c :: _ => if c.isAlpha && seg.all identChar then some ⟨seg⟩ else none
  | [] => none

/-- The numeric value of a digit character. -/
def digitVal (c : Char) : Nat := c.toNat - 48

/-- The value of an all-digit token. -/
def parseNatTok (seg : List Char) : Option Nat :=
  if seg.isEmpty then none
  else if seg.all Char.isDigit then some (seg.foldl (fun acc c => acc * 10 + digitVal c) 0)
  else none

/-- Split a token at its dots. -/
def splitDots : List Char → List (List Char)
  | [] => [[]]
  | c :: rest =>
      if c = '.' then [] :: splitDots rest
      else
        match splitDots rest with
        | seg :: segs => (c :: seg) :: segs
        | [] => [[c]]

/-- Parse every dot-separated segment of a member path as a name. -/
def parsePathSegs : List (List Char) → Option (List Identifier)
  | [] => some []
  | seg :: segs =>
      match parseIdentTok seg with
      | none => none
      | some f =>
          match parsePathSegs segs with
          | none => none
          | some fs => some (f :: fs)

/-- Modelled from the spec: parse a register token — `r` followed by a
decimal locator, optionally followed by a dot-separated member path. -/
def parseRegister (tok : List Char) : Option Register :=
  match tok with
  | c :: rest =>
      if c = 'r' then
        match splitDots rest with
        | [] => none
        | digs :: segs =>
            match parseNatTok digs with
            | none => none
            | some n =>
                match segs with
                | [] => some (.locator n)
                | _ :: _ =>
                    match parsePathSegs segs with
                    | some fs => some (.member n fs)
                    | none => none
      else none
  | [] => none

/-- Modelled from the spec: the table of literal kind names. -/
def kindTable : List (String × LiteralType) :=
  [ ("address", .address), ("boolean", .boolean), ("field", .field), ("group", .group),
    ("i8", .i8), ("i16", .i16), ("i32", .i32), ("i64", .i64), ("i128", .i128),
    ("u8", .u8), ("u16", .u16), ("u32", .u32), ("u64", .u64), ("u128", .u128),
    ("scalar", .scalar), ("string", .string) ]

/-- Look a token up in a kind-name table. -/
def kindLookup : List (String × LiteralType) → List Char → Option LiteralType
  | [], _ => none
  | (s, k) :: rest, seg => if seg = s.data then some k else kindLookup rest seg

/-- Modelled from the spec: map a kind name back to its literal kind. -/
def kindOfName (seg : List Char) : Option LiteralType :=
  kindLookup kindTable seg

/-- Modelled from the spec: a type name denotes a literal kind when it is
one of the fixed kind names, and otherwise references an interface. -/
def plaintextTypeOfName (s : Identifier) : PlaintextType :=
  match kindOfName s.data with
  | some k => .literal k
  | none => .interface s

/-- Modelled from the spec: parse an operand token — the boolean literals,
a numeric literal as digits followed by a kind name, or a register. -/
def parseOperandTok (tok : List Char) : Option Operand :=
  match tok with
  | [] => none
  | c :: _ =>
      if tok = "true".data then some (.literal (.boolean true))
      else if tok = "false".data then some (.literal (.boolean false))
      else if c.isDigit then
        match parseNatTok (tok.takeWhile Char.isDigit), kindOfName (tok.dropWhile Char.isDigit) with
        | some n, some k => some (.literal (.num k n))
        | _, _ => none
      else
        match parseRegister tok with
        | some r => some (.register r)
        | none => none

/-- Modelled from the spec: interpret a base and mode segment pair as a
value type. -/
def parseVTSegs (base mode : List Char) : Option ValueType :=
  match parseIdentTok base with
  | none => none
  | some b =>
      if mode = "constant".data then some (.constant (plaintextTypeOfName b))
      else if mode = "public".data then some (.publicT (plaintextTypeOfName b))
      else if mode = "private".data then some (.privateT (plaintextTypeOfName b))
      else if mode = "record".data then some (.record b)
      else none

/-- Modelled from the spec: parse a `TYPE.MODE` or `RECORD.record` value
type token. -/
def parseValueTypeTok (tok : List Char) : Option ValueType :=
  match splitDots tok with
  | [base, mode] => parseVTSegs base mode
  | _ => none

/-- Modelled from the spec: interpret a base and mode segment pair as a
record entry type. -/
def parseETSegs (base mode : List Char) : Option EntryType :=
  match parseIdentTok base with
  | none => none
  | some b =>
      if mode = "constant".data then some (.constant (plaintextTypeOfName b))
      else if mode = "public".data then some (.publicT (plaintextTypeOfName b))
      else if mode = "private".data then some (.privateT (plaintextTypeOfName b))
      else none

/-- Modelled from the spec: parse a `TYPE.MODE` record entry type token. -/
def parseEntryTypeTok (tok : List Char) : Option EntryType :=
  match splitDots tok with
  | [base, mode] => parseETSegs base mode
  | _ => none

/-- Modelled from the spec: parse an interface member line. -/
def parseMemberLine (l : List Char) : Option (Identifier × PlaintextType) :=
  match stripLead "    ".data l with
  | none => none
  | some l1 =>
      let (ftok, l2) := takeTok l1
      match parseIdentTok ftok with
      | none => none
      | some f =>
          match stripLead " as ".data l2 with
          | none => none
          | some l3 =>
              let (ttok, l4) := takeTok l3
              match parseIdentTok ttok with
              | none => none
              | some t => if l4 = ";".data then some (f, plaintextTypeOfName t) else none

/-- Modelled from the spec: parse a record entry line. -/
def parseEntryLine (l : List Char) : Option (Identifier × EntryType) :=
  match stripLead "    ".data l with
  | none => none
  | some l1 =>
      let (ftok, l2) := takeTok l1
      match parseIdentTok ftok with
      | none => none
      | some f =>
          match stripLead " as ".data l2 with
          | none => none
          | some l3 =>
              let (ttok, l4) := takeTok l3
              match parseEntryTypeTok ttok with
              | none => none
              | some et => if l4 = ";".data then some (f, et) else none

/-- A classified function body line. -/
inductive FunLine where
  | inp (r : Register) (vt : ValueType)
  | ins (i : Instruction)
  | outp (r : Register) (vt : ValueType)
deriving DecidableEq

/-- Modelled from the spec: parse an `input REG as VT;` line after its
leading keyword. -/
def parseIOTail (l : List Char) : Option (Register × ValueType) :=
  let (rtok, l1) := takeTok l
  match parseRegister rtok with
  | none => none
  | some r =>
      match stripLead " as ".data l1 with
      | none => none
      | some l2 =>
          let (vtok, l3) := takeTok l2
          match parseValueTypeTok vtok with
          | none => none
          | some vt => if l3 = ";".data then some (r, vt) else none

/-- Modelled from the spec: parse an `add A B into D;` instruction line
after its leading keyword. -/
def parseAddTail (l : List Char) : Option Instruction :=
  let (atok, l1) := takeTok l
  match parseOperandTok atok with
  | none => none
  | some a =>
      match stripLead " ".data l1 with
      | none => none
      | some l2 =>
          let (btok, l3) := takeTok l2
          match parseOperandTok btok with
          | none => none
          | some b =>
              match stripLead " into ".data l3 with
              | none => none
              | some l4 =>
                  let (dtok, l5) := takeTok l4
                  match parseRegister dtok with
                  | none => none
                  | some d => if l5 = ";".data then some (.add a b d) else none

/-- Modelled from the spec: classify and parse one function body line. -/
def parseFunLine (l : List Char) : Option FunLine :=
  match stripLead "    input ".data l with
  | some tl =>
      match parseIOTail tl with
      | some (r, vt) => some (.inp r vt)
      | none => none
  | none =>
      match stripLead "    add ".data l with
      | some tl =>
          match parseAddTail tl with
          | some i => some (.ins i)
          | none => none
      | none =>
          match stripLead "    output ".data l with
          | some tl =>
              match parseIOTail tl with
              | some (r, vt) => some (.outp r vt)
              | none => none
          | none => none

/-- The leading input declarations of a classified line list. -/
def takeInputs : List FunLine → List (Register × ValueType) × List FunLine
  | .inp r vt :: rest =>
      match takeInputs rest with
      | (is, rem) => ((r, vt) :: is, rem)
  | l => ([], l)

/-- The leading instructions of a classified line list. -/
def takeInstrs : List FunLine → List Instruction × List FunLine
  | .ins i :: rest =>
      match takeInstrs rest with
      | (xs, rem) => (i :: xs, rem)
  | l => ([], l)

/-- The leading output declarations of a classified line list. -/
def takeOutputs : List FunLine → List (Register × ValueType) × List FunLine
  | .outp r vt :: rest =>
      match takeOutputs rest with
      | (os, rem) => ((r, vt) :: os, rem)
  | l => ([], l)

/-- Modelled from the spec: a function body is input lines, then
instruction lines, then output lines, with nothing out of phase. -/
def splitPhases (ls : List FunLine) :
    Option (List (Register × ValueType) × List Instruction × List (Register × ValueType)) :=
  let p1 := takeInputs ls
  let p2 := takeInstrs p1.2
  let p3 := takeOutputs p2.2
  match p3.2 with
  | [] => some (p1.1, p2.1, p3.1)
  | _ :: _ => none

/-- Parse every line of a declaration body with the given line parser. -/
def mapParse {α : Type} (f : List Char → Option α) : List (List Char) → Option (List α)
  | [] => some []
  | l :: ls =>
      match f l with
      | none => none
      | some a =>
          match mapParse f ls with
          | none => none
          | some xs => some (a :: xs)

/-- Modelled from the spec: parse a `NAME:` header tail. -/
def parseHeaderTail (l : List Char) : Option Identifier :=
  let (tok, rest) := takeTok l
  match parseIdentTok tok with
  | some name => if rest = ":".data then some name else none
  | none => none

/-- Modelled from the spec: parse one declaration from its header line and
its indented body lines. -/
def parseDeclBlock (header : List Char) (body : List (List Char)) : Option Decl :=
  match stripLead "interface ".data header with
  | some tl =>
      match parseHeaderTail tl with
      | none => none
      | some name =>
          match mapParse parseMemberLine body with
          | none => none
          | some members => some (.interface ⟨name, members⟩)
  | none =>
      match stripLead "record ".data header with
      | some tl =>
          match parseHeaderTail tl with
          | none => none
          | some name =>
              match mapParse parseEntryLine body with
              | none => none
              | some entries => some (.record ⟨name, entries⟩)
      | none =>
          match stripLead "function ".data header with
          | some tl =>
              match parseHeaderTail tl with
              | none => none
              | some name =>
                  match mapParse parseFunLine body with
                  | none => none
                  | some ls =>
                      match splitPhases ls with
                      | none => none
                      | some (is, xs, os) => some (.function ⟨name, is, xs, os⟩)
          | none => none

/-- True when a line carries the four-space body indentation. -/
def startsIndent : List Char → Bool
  | ' ' :: ' ' :: ' ' :: ' ' :: _ => true
  | _ => false

/-- Modelled from the spec: parse a sequence of declarations from the line
list, skipping blank lines between declarations.  The first argument is
recursion fuel; every step consumes at least one line, so any fuel of at
least the number of lines is enough. -/
def parseDeclListAux : Nat → List (List Char) → Option (List Decl)
  | _, [] => some []
  | 0, _ :: _ => none
  | fuel + 1, line :: rest =>
      if line.isEmpty then parseDeclListAux fuel rest
      else
        match parseDeclBlock line (rest.takeWhile startsIndent) with
        | none => none
        | some d =>
            match parseDeclListAux fuel (rest.dropWhile startsIndent) with
            | none => none
            | some ds => some (d :: ds)

/-- Parse a sequence of declarations from the line list. -/
def parseDeclList (ls : List (List Char)) : Option (List Decl) :=
  parseDeclListAux ls.length ls

/-- Split the program text at newline characters. -/
def splitLines : List Char → List (List Char)
  | [] => [[]]
  | c :: rest =>
      if c = '\n' then [] :: splitLines rest
      else
        match splitLines rest with
        | seg :: segs => (c :: seg) :: segs
        | [] => [[c]]

/-- The builder loop of `impl Parser for Program`: construct the program
from the parsed components with the add operations, in order. -/
def addDecl (p : Program) : Decl → Except String Program
  | .interface i =>
      match p.add_interface i with
      | (.ok _, p') => .ok p'
      | (.error e, _) => .error e
  | .record r =>
      match p.add_record r with
      | (.ok _, p') => .ok p'
      | (.error e, _) => .error e
  | .function f =>
      match p.add_function f with
      | ((.ok _, p'), _) => .ok p'
      | ((.error e, _), _) => .error e

/-- Folding the add operations over a declaration list from a start
state. -/
def buildAux : Program → List Decl → Except String Program
  | p, [] => .ok p
  | p, d :: ds =>
      match addDecl p d with
      | .error e => .error e
      | .ok p' => buildAux p' ds

/-- Constructing a program from parsed declarations, starting from the
empty program, as `Program::parse` does. -/
def buildProgram (ds : List Decl) : Except String Program :=
  buildAux Program.new ds

/-- `Program::from_str` over the modelled grammar: split into lines, parse
one or more declarations consuming the whole input, and construct the
program with the add operations. -/
def parseProgram (s : String) : Except String Program :=
  match parseDeclList (splitLines s.data) with
  | none => .error "Failed to parse string."
  | some [] => .error "Failed to parse string."
  | some (d :: ds) => buildProgram (d :: ds)

/-- The key-soundness invariant of every constructible program: every key
of the four declaration maps is a key of `identifiers`.  It holds of the
empty program and is preserved by the add operations. -/
def Program.wf (p : Program) : Bool :=
  p.interfaces.all (fun pr => containsIM p.identifiers pr.1) &&
  p.records.all (fun pr => containsIM p.identifiers pr.1) &&
  p.functions.all (fun pr => containsIM p.identifiers pr.1) &&
  p.function_registers.all (fun pr => containsIM p.identifiers pr.1)

/-- Resolution of a list of identifier entries against a program's maps. -/
def resolvesAux (p : Program) (ids : List (Identifier × ProgramDefinition)) : Bool :=
  ids.all (fun pr =>
    match pr.2 with
    | .interface => containsIM p.interfaces pr.1
    | .record => containsIM p.records pr.1
    | .function => containsIM p.functions pr.1)

/-- Every identifier entry resolves in the map its tag selects, so that
`Display` succeeds. -/
def Program.resolves (p : Program) : Bool :=
  resolvesAux p p.identifiers

/-- The declarations selected by a list of identifier entries. -/
def declsOfAux (p : Program) (ids : List (Identifier × ProgramDefinition)) : List Decl :=
  ids.filterMap (fun pr =>
    match pr.2 with
    | .interface => (lookupIM p.interfaces pr.1).map Decl.interface
    | .record => (lookupIM p.records pr.1).map Decl.record
    | .function => (lookupIM p.functions pr.1).map Decl.function)

/-- The declarations of a program in `identifiers` insertion order. -/
def Program.declsOf (p : Program) : List Decl :=
  declsOfAux p p.identifiers

/-- Modelled from the spec: a name is drawn from the naming alphabet when
it is nonempty, starts with a letter and uses only name characters. -/
def validIdent (s : Identifier) : Bool :=
  match s.data with
  | [] => false
  | c :: _ => c.isAlpha && s.data.all identChar

/-- Modelled from the spec: a name is lexically valid and usable when it is
drawn from the naming alphabet and is not reserved. -/
def okName (s : Identifier) : Bool :=
  validIdent s && !(is_reserved_name s)

/-- Lexical validity of a plaintext type's printed form. -/
def validPT : PlaintextType → Bool
  | .literal _ => true
  | .interface id => okName id

/-- Lexical validity of a value type's printed form. -/
def validVT : ValueType → Bool
  | .constant t => validPT t
  | .publicT t => validPT t
  | .privateT t => validPT t
  | .record id => okName id

/-- Lexical validity of a register's printed form: member paths are
nonempty lists of valid names. -/
def validReg : Register → Bool
  | .locator _ => true
  | .member _ path => !path.isEmpty && path.all okName

/-- Lexical validity of an operand's printed form. -/
def validOperand : Operand → Bool
  | .literal _ => true
  | .register r => validReg r

/-- Lexical validity of an instruction's printed form. -/
def validInstr : Instruction → Bool
  | .add a b d => validOperand a && validOperand b && validReg d

/-- Lexical validity of a declaration: every name in its printed form is
drawn from the naming alphabet and is not reserved. -/
def validDecl : Decl → Bool
  | .interface i =>
      okName i.name && i.members.all (fun pr => okName pr.1 && validPT pr.2)
  | .record r =>
      okName r.name && r.entries.all (fun pr => okName pr.1 && validPT pr.2.inner)
  | .function f =>
      okName f.name &&
      f.inputs.all (fun pr => validReg pr.1 && validVT pr.2) &&
      f.instructions.all validInstr &&
      f.outputs.all (fun pr => validReg pr.1 && validVT pr.2)

/-- Lexical validity of a declaration list. -/
def validDecls (ds : List Decl) : Bool := ds.all validDecl

/-- Modelled from the spec: the reserved keyword list of §6, transcribed
from the specification's own enumeration. -/
def specReservedKeywords : List String :=
  [ "const", "constant", "public", "private",
    "address", "boolean", "field", "group",
    "i8", "i16", "i32", "i64", "i128",
    "u8", "u16", "u32", "u64", "u128",
    "scalar", "string",
    "true", "false",
    "input", "output", "as", "into",
    "function", "interface", "record", "program", "global",
    "return", "break", "assert", "continue", "let", "if", "else",
    "while", "for", "switch", "case", "default", "match", "enum",
    "struct", "union", "trait", "impl", "type" ]

/-- The concatenation of the printed declarations, each followed by a blank
line — the specification's serialization formula before its final
trimming. -/
def concatDecls (ds : List Decl) : List Char :=
  (ds.map (fun d => d.chars ++ "\n\n".data)).flatten

/-- The line sequence of a declaration list: each declaration's lines
followed by one empty line. -/
def declLinesAll (ds : List Decl) : List (List Char) :=
  (ds.map (fun d => d.lines ++ [[]])).flatten

/-- True when no character of the line is a newline. -/
def nlFree (l : List Char) : Bool := l.all (fun c => !(c = '\n'))

/-- True when the input is empty or starts with a non-token character. -/
def tokBoundary : List Char → Bool
  | [] => true
  | c :: _ => !(tokChar c)

/-- True when the input is empty or starts with a non-digit character. -/
def digitBoundary : List Char → Bool
  | [] => true
  | c :: _ => !(c.isDigit)

/-- True when a character list contains no dot. -/
def dotFree (l : List Char) : Bool := l.all (fun c => !(c = '.'))

/-- A sample interface used as a concrete test vehicle. -/
def sampleInterface : Interface :=
  ⟨"message", [("first", .literal .field), ("second", .literal .field)]⟩

/-- The program holding only `sampleInterface`. -/
def sampleProgram : Program :=
  ⟨[("message", .interface)], [("message", sampleInterface)], [], [], []⟩

/-- The printed form of `sampleProgram`. -/
def sampleDisplayText : String :=
  "interface message:\n    first as field;\n    second as field;\n"

/-! Helper lemmas about the association-list map model. -/

theorem lookupIM_mem {α : Type} {m : List (Identifier × α)} {k : Identifier} {v : α}
    (h : lookupIM m k = some v) : (k, v) ∈ m := by
  induction m with
  | nil => simp [lookupIM] at h
  | cons pr rest ih =>
      obtain ⟨k', v'⟩ := pr
      by_cases hk : k' = k
      · subst hk
        simp [lookupIM] at h
        subst h
        exact List.mem_cons_self _ _
      · simp [lookupIM, hk] at h
        exact List.mem_cons_of_mem _ (ih h)

theorem containsIM_exists {α : Type} {m : List (Identifier × α)} {k : Identifier}
    (h : containsIM m k = true) : ∃ v, lookupIM m k = some v := by
  unfold containsIM at h
  exact Option.isSome_iff_exists.mp h

theorem all_keys {α : Type} {m : List (Identifier × α)} {f : Identifier → Bool}
    (hall : m.all (fun pr => f pr.1) = true) {k : Identifier}
    (hc : containsIM m k = true) : f k = true := by
  obtain ⟨v, hv⟩ := containsIM_exists hc
  have hmem := lookupIM_mem hv
  have := List.all_eq_true.mp hall _ hmem
  simpa using this

theorem insertIM_not_contains {α : Type} {m : List (Identifier × α)} {k : Identifier}
    (h : containsIM m k = false) (v : α) : insertIM m k v = (none, m ++ [(k, v)]) := by
  induction m with
  | nil => rfl
  | cons pr rest ih =>
      obtain ⟨k', v'⟩ := pr
      have hk : ¬ (k' = k) := by
        intro hEq
        subst hEq
        simp [containsIM, lookupIM] at h
      simp only [containsIM, lookupIM, hk, if_false] at h
      simp [insertIM, hk, ih h]

theorem lookupIM_append_right {α : Type} {m : List (Identifier × α)} {k : Identifier}
    (h : containsIM m k = false) (v : α) : lookupIM (m ++ [(k, v)]) k = some v := by
  induction m with
  | nil => simp [lookupIM]
  | cons pr rest ih =>
      obtain ⟨k', v'⟩ := pr
      have hk : ¬ (k' = k) := by
        intro hEq
        subst hEq
        simp [containsIM, lookupIM] at h
      simp only [containsIM, lookupIM, hk, if_false] at h
      simp [lookupIM, hk, ih h]

theorem lookupIM_append_left {α : Type} {m ext : List (Identifier × α)} {k : Identifier} {v : α}
    (h : lookupIM m k = some v) : lookupIM (m ++ ext) k = some v := by
  induction m with
  | nil => simp [lookupIM] at h
  | cons pr rest ih =>
      obtain ⟨k', v'⟩ := pr
      by_cases hk : k' = k
      · subst hk
        simp [lookupIM] at h ⊢
        exact h
      · simp [lookupIM, hk] at h ⊢
        exact ih h

theorem lookupIM_append_miss {α : Type} {m : List (Identifier × α)} {k k' : Identifier}
    (h : lookupIM m k = none) (hk : k' ≠ k) (v : α) :
    lookupIM (m ++ [(k', v)]) k = none := by
  induction m with
  | nil => simp [lookupIM, hk]
  | cons pr rest ih =>
      obtain ⟨k0, v0⟩ := pr
      by_cases h0 : k0 = k
      · simp [lookupIM, h0] at h
      · simp [lookupIM, h0] at h ⊢
        exact ih h

theorem containsIM_append_one {α : Type} {m : List (Identifier × α)} {k k' : Identifier} (v : α) :
    containsIM (m ++ [(k', v)]) k = (containsIM m k || decide (k' = k)) := by
  induction m with
  | nil =>
      simp only [containsIM, lookupIM, List.nil_append, Bool.false_or]
      by_cases h0 : k' = k <;> simp [h0]
  | cons pr rest ih =>
      obtain ⟨k0, v0⟩ := pr
      by_cases h0 : k0 = k
      · simp [containsIM, lookupIM, h0]
      · simp only [containsIM, lookupIM, h0, if_false, List.cons_append] at ih ⊢
        exact ih

/-- C1: for every program, function name and input list, two invocations of
`evaluate` on the same immutable program agree — either both return the
same output list or both return the same error; the embedding of `evaluate`
takes the program as a pure argument and returns only the outputs, so it
cannot mutate the program. -/
theorem evaluate_deterministic (p : Program) (f : Identifier) (xs : List RegisterValue) :
    (∃ out, p.evaluate f xs = .ok out ∧ p.evaluate f xs = .ok out) ∨
    (∃ e, p.evaluate f xs = .error e ∧ p.evaluate f xs = .error e) := by
  cases h : p.evaluate f xs with
  | ok out => exact Or.inl ⟨out, rfl, rfl⟩
  | error e => exact Or.inr ⟨e, rfl, rfl⟩

/-- C4: in `add_function` step 3, the output type comparison succeeds
exactly when the statically computed register type equals the declared
value type with its mode dropped, and whenever they differ the step-3 loop
of `add_function` returns an error for that output. -/
theorem add_function_output_type_check :
    (∀ (rt : RegisterType) (vt : ValueType),
      checkOutputType rt vt = .ok () ↔ rt = vt.toRegisterType) ∧
    (∀ (p : Program) (rts : RegisterTypes) (diags : List String) (r : Register)
      (vt : ValueType) (rest : List (Register × ValueType)) (rt : RegisterType),
      rts.get_type p r = .ok rt → rt ≠ vt.toRegisterType →
      (addOutputs p rts diags ((r, vt) :: rest)).1.isOk = false) := by
  constructor
  · intro rt vt
    cases rt <;> cases vt <;>
      simp only [checkOutputType, ValueType.toRegisterType] <;>
      (try split) <;> simp_all
  · intro p rts diags r vt rest rt hget hne
    have hchk : ∀ u, checkOutputType rt vt ≠ .ok u := by
      intro u hu
      cases u
      apply hne
      revert hu
      cases rt <;> cases vt <;>
        simp only [checkOutputType, ValueType.toRegisterType] <;>
        (try split) <;> simp_all
    unfold addOutputs
    simp only [hget]
    cases hvd : checkValueTypeDefined p vt with
    | some e => rfl
    | none =>
        simp only
        cases hc : checkOutputType rt vt with
        | error e => rfl
        | ok u => exact absurd hc (hchk u)

/-- Witness for C4 at a record-typed output declared for a plaintext
register. -/
theorem add_function_output_type_check_witness :
    (addOutputs Program.new ⟨[(0, .publicT (.literal .field))], [], []⟩ []
      [(.locator 0, .record "token")]).1.isOk = false :=
  add_function_output_type_check.2 Program.new ⟨[(0, .publicT (.literal .field))], [], []⟩ []
    (.locator 0) (.record "token") [] (.plaintext (.literal .field)) rfl (by decide)

/-- C5: the output conversion of `evaluate` stamps a plaintext register
value with the declared output mode (`Constant`, `Public`, `Private`),
passes a record register value through a record declaration as a record
value, and rejects every other pairing. -/
theorem evaluate_output_stamping (pl : Plaintext) (t : PlaintextType) (id : Identifier)
    (r : RecordValue) :
    outputValue (.plaintext pl) (.constant t) = .ok (.constant pl) ∧
    outputValue (.plaintext pl) (.publicT t) = .ok (.publicT pl) ∧
    outputValue (.plaintext pl) (.privateT t) = .ok (.privateT pl) ∧
    outputValue (.record r) (.record id) = .ok (.record r) ∧
    (outputValue (.plaintext pl) (.record id)).isOk = false ∧
    (outputValue (.record r) (.constant t)).isOk = false ∧
    (outputValue (.record r) (.publicT t)).isOk = false ∧
    (outputValue (.record r) (.privateT t)).isOk = false := by
  refine ⟨rfl, rfl, rfl, rfl, rfl, rfl, rfl, rfl⟩

/-- C7 counterexample: the reserved keyword list given by the
specification's §6 enumeration does not have 32 entries. -/
theorem reserved_keyword_count_cex : ¬ (specReservedKeywords.length = 32) := by
  decide

/-- C7 (amended): `is_reserved_name` returns true exactly when the printed
form of the identifier is one of the fixed 50 keywords of §6's exact
list. -/
theorem is_reserved_name_spec :
    (∀ id : Identifier, is_reserved_name id = true ↔ id ∈ specReservedKeywords) ∧
    specReservedKeywords.length = 50 := by
  constructor
  · intro id
    have hlists : KEYWORDS = specReservedKeywords := rfl
    simp [is_reserved_name, List.any_eq_true, hlists]
  · decide

/-! Display lemmas. -/

theorem displayFold_resolves (p : Program) :
    ∀ ids, resolvesAux p ids = true →
      displayFold p ids = .ok (concatDecls (declsOfAux p ids)) := by
  intro ids
  induction ids with
  | nil => intro _; rfl
  | cons pr rest ih =>
      intro hall
      obtain ⟨id, tag⟩ := pr
      rw [resolvesAux, List.all_cons, Bool.and_eq_true] at hall
      obtain ⟨hhead, htail⟩ := hall
      have hall' : resolvesAux p rest = true := htail
      cases tag with
      | interface =>
          obtain ⟨v, hv⟩ := containsIM_exists (by simpa using hhead)
          simp [displayFold, hv, ih hall', declsOfAux, concatDecls]
      | record =>
          obtain ⟨v, hv⟩ := containsIM_exists (by simpa using hhead)
          simp [displayFold, hv, ih hall', declsOfAux, concatDecls]
      | function =>
          obtain ⟨v, hv⟩ := containsIM_exists (by simpa using hhead)
          simp [displayFold, hv, ih hall', declsOfAux, concatDecls]

/-- C6 counterexample: the printed form of `sampleProgram` ends with a
newline character — the source's `Display` removes only the single final
character of the concatenation, not every trailing newline. -/
theorem display_trailing_newline_cex :
    Program.display sampleProgram = .ok sampleDisplayText ∧
    sampleDisplayText.data.getLast? = some '\n' := by
  exact ⟨rfl, rfl⟩

/-- C6 (amended): `Display` prints the declarations in `identifiers`
insertion order, each followed by a blank line, and then removes exactly
the final character of the concatenation, so for a nonempty program the
printed string ends with a single newline. -/
theorem display_spec (p : Program) (h : p.resolves = true) :
    Program.display p = .ok ⟨(concatDecls p.declsOf).dropLast⟩ := by
  unfold Program.display
  rw [displayFold_resolves p p.identifiers h]
  rfl

/-- Witness for the amended C6 theorem at `sampleProgram`. -/
theorem display_spec_witness :
    Program.resolves sampleProgram = true ∧
    Program.display sampleProgram = .ok ⟨(concatDecls sampleProgram.declsOf).dropLast⟩ :=
  ⟨by decide, display_spec sampleProgram (by decide)⟩

/-! Builder lemmas. -/

theorem wf_map_not_contains (p : Program) (hwf : p.wf = true) {k : Identifier}
    (h : containsIM p.identifiers k = false) :
    containsIM p.interfaces k = false ∧ containsIM p.records k = false ∧
    containsIM p.functions k = false ∧ containsIM p.function_registers k = false := by
  rw [Program.wf] at hwf
  simp only [Bool.and_eq_true] at hwf
  obtain ⟨⟨⟨w1, w2⟩, w3⟩, w4⟩ := hwf
  refine ⟨?_, ?_, ?_, ?_⟩
  · cases hc : containsIM p.interfaces k with
    | false => rfl
    | true => exact absurd (all_keys w1 hc) (by simp [h])
  · cases hc : containsIM p.records k with
    | false => rfl
    | true => exact absurd (all_keys w2 hc) (by simp [h])
  · cases hc : containsIM p.functions k with
    | false => rfl
    | true => exact absurd (all_keys w3 hc) (by simp [h])
  · cases hc : containsIM p.function_registers k with
    | false => rfl
    | true => exact absurd (all_keys w4 hc) (by simp [h])

theorem add_interface_success (p : Program) (i : Interface)
    (h1 : containsIM p.identifiers i.name = false)
    (h2 : is_reserved_name i.name = false)
    (h3 : checkInterfaceMembers p i.members = none)
    (h4 : containsIM p.interfaces i.name = false) :
    p.add_interface i =
      (.ok (), ⟨p.identifiers ++ [(i.name, .interface)], p.interfaces ++ [(i.name, i)],
                p.records, p.functions, p.function_registers⟩) := by
  unfold Program.add_interface
  simp only [Program.is_unique_name, h1, h2, h3, Bool.not_false, Bool.not_true,
    if_false, Bool.false_eq_true, if_true]
  rw [insertIM_not_contains h1]
  simp only [Option.isSome_none, Bool.false_eq_true, if_false]
  rw [insertIM_not_contains h4]
  rfl

theorem add_record_success (p : Program) (r : RecordType)
    (h1 : containsIM p.identifiers r.name = false)
    (h2 : is_reserved_name r.name = false)
    (h3 : checkRecordEntries p r.entries = none)
    (h4 : containsIM p.records r.name = false) :
    p.add_record r =
      (.ok (), ⟨p.identifiers ++ [(r.name, .record)], p.interfaces,
                p.records ++ [(r.name, r)], p.functions, p.function_registers⟩) := by
  unfold Program.add_record
  simp only [Program.is_unique_name, h1, h2, h3, Bool.not_false, Bool.not_true,
    if_false, Bool.false_eq_true, if_true]
  rw [insertIM_not_contains h1]
  simp only [Option.isSome_none, Bool.false_eq_true, if_false]
  rw [insertIM_not_contains h4]
  rfl

theorem add_function_success (p : Program) (f : FunctionDef)
    (rts1 rts2 rts3 : RegisterTypes) (diags : List String)
    (h1 : containsIM p.identifiers f.name = false)
    (h2 : is_reserved_name f.name = false)
    (hin : addInputs p RegisterTypes.new f.inputs = .ok rts1)
    (hins : addInstructions p rts1 f.instructions = .ok rts2)
    (hout : addOutputs p rts2 [] f.outputs = (.ok rts3, diags))
    (h4 : containsIM p.functions f.name = false)
    (h5 : containsIM p.function_registers f.name = false) :
    p.add_function f =
      ((.ok (), ⟨p.identifiers ++ [(f.name, .function)], p.interfaces, p.records,
                 p.functions ++ [(f.name, f)], p.function_registers ++ [(f.name, rts3)]⟩),
       diags) := by
  unfold Program.add_function
  simp only [Program.is_unique_name, h1, h2, hin, hins, hout, Bool.not_false, Bool.not_true,
    if_false, Bool.false_eq_true, if_true]
  rw [insertIM_not_contains h1]
  simp only [Option.isSome_none, Bool.false_eq_true, if_false]
  rw [insertIM_not_contains h4]
  simp only [Option.isSome_none, Bool.false_eq_true, if_false]
  rw [insertIM_not_contains h5]
  rfl

/-- C2: under the key-soundness invariant that holds of every constructible
program, an `add_interface`, `add_record` or `add_function` call that
returns an error leaves the program exactly as it was. -/
theorem add_ops_atomic (p : Program) (hwf : p.wf = true) :
    (∀ i e, (p.add_interface i).1 = .error e → (p.add_interface i).2 = p) ∧
    (∀ r e, (p.add_record r).1 = .error e → (p.add_record r).2 = p) ∧
    (∀ f e, (p.add_function f).1.1 = .error e → (p.add_function f).1.2 = p) := by
  refine ⟨?_, ?_, ?_⟩
  · intro i e h
    by_cases h1 : containsIM p.identifiers i.name = true
    · unfold Program.add_interface
      simp [Program.is_unique_name, h1]
    · rw [Bool.not_eq_true] at h1
      by_cases h2 : is_reserved_name i.name = true
      · unfold Program.add_interface
        simp [Program.is_unique_name, h1, h2]
      · rw [Bool.not_eq_true] at h2
        cases h3 : checkInterfaceMembers p i.members with
        | some msg =>
            unfold Program.add_interface
            simp [Program.is_unique_name, h1, h2, h3]
        | none =>
            rw [add_interface_success p i h1 h2 h3 (wf_map_not_contains p hwf h1).1] at h
            simp at h
  · intro r e h
    by_cases h1 : containsIM p.identifiers r.name = true
    · unfold Program.add_record
      simp [Program.is_unique_name, h1]
    · rw [Bool.not_eq_true] at h1
      by_cases h2 : is_reserved_name r.name = true
      · unfold Program.add_record
        simp [Program.is_unique_name, h1, h2]
      · rw [Bool.not_eq_true] at h2
        cases h3 : checkRecordEntries p r.entries with
        | some msg =>
            unfold Program.add_record
            simp [Program.is_unique_name, h1, h2, h3]
        | none =>
            rw [add_record_success p r h1 h2 h3 (wf_map_not_contains p hwf h1).2.1] at h
            simp at h
  · intro f e h
    by_cases h1 : containsIM p.identifiers f.name = true
    · unfold Program.add_function
      simp [Program.is_unique_name, h1]
    · rw [Bool.not_eq_true] at h1
      by_cases h2 : is_reserved_name f.name = true
      · unfold Program.add_function
        simp [Program.is_unique_name, h1, h2]
      · rw [Bool.not_eq_true] at h2
        cases hin : addInputs p RegisterTypes.new f.inputs with
        | error msg =>
            unfold Program.add_function
            simp [Program.is_unique_name, h1, h2, hin]
        | ok rts1 =>
            cases hins : addInstructions p rts1 f.instructions with
            | error msg =>
                unfold Program.add_function
                simp [Program.is_unique_name, h1, h2, hin, hins]
            | ok rts2 =>
                rcases hres : addOutputs p rts2 [] f.outputs with ⟨res3, diags⟩
                cases res3 with
                | error msg =>
                    unfold Program.add_function
                    simp [Program.is_unique_name, h1, h2, hin, hins, hres]
                | ok rts3 =>
                    rw [add_function_success p f rts1 rts2 rts3 diags h1 h2 hin hins hres
                      (wf_map_not_contains p hwf h1).2.2.1
                      (wf_map_not_contains p hwf h1).2.2.2] at h
                    simp at h

/-- Witness for C2 at a concrete duplicate `add_interface` call. -/
theorem add_ops_atomic_witness :
    Program.wf sampleProgram = true ∧
    (sampleProgram.add_interface sampleInterface).1 = .error "is already in use." ∧
    (sampleProgram.add_interface sampleInterface).2 = sampleProgram :=
  ⟨by decide, rfl, (add_ops_atomic sampleProgram (by decide)).1 sampleInterface _ rfl⟩

theorem checkInterfaceMembers_none_iff (p : Program) (ms : List (Identifier × PlaintextType)) :
    checkInterfaceMembers p ms = none ↔
      ∀ pr ∈ ms, is_reserved_name pr.1 = false ∧
        ∀ mid, pr.2 = .interface mid → containsIM p.interfaces mid = true := by
  induction ms with
  | nil => simp [checkInterfaceMembers]
  | cons pr rest ih =>
      obtain ⟨f, t⟩ := pr
      by_cases hr : is_reserved_name f = true
      · simp [checkInterfaceMembers, hr]
      · rw [Bool.not_eq_true] at hr
        cases t with
        | literal k =>
            simp only [checkInterfaceMembers, hr, Bool.false_eq_true, if_false]
            rw [ih]
            constructor
            · intro hall
              intro q hq
              rcases List.mem_cons.mp hq with hq | hq
              · subst hq
                exact ⟨hr, by intro mid hmid; cases hmid⟩
              · exact hall q hq
            · intro hall q hq
              exact hall q (List.mem_cons_of_mem _ hq)
        | interface mid =>
            by_cases hc : containsIM p.interfaces mid = true
            · simp only [checkInterfaceMembers, hr, Bool.false_eq_true, if_false, hc, if_true]
              rw [ih]
              constructor
              · intro hall q hq
                rcases List.mem_cons.mp hq with hq | hq
                · subst hq
                  refine ⟨hr, ?_⟩
                  intro mid' hmid'
                  cases hmid'
                  exact hc
                · exact hall q hq
              · intro hall q hq
                exact hall q (List.mem_cons_of_mem _ hq)
            · rw [Bool.not_eq_true] at hc
              simp only [checkInterfaceMembers, hr, Bool.false_eq_true, if_false, hc, if_true]
              constructor
              · intro hfalse
                cases hfalse
              · intro hall
                have := (hall (f, .interface mid) (List.mem_cons_self _ _)).2 mid rfl
                rw [this] at hc
                cases hc

/-- C3: under the key-soundness invariant, `add_interface` fails exactly
when the interface's name is already an identifier of the program, its name
is reserved, some member name is reserved, or some member has an interface
type that is not already declared; and on success the interface is
retrievable under its name. -/
theorem add_interface_spec (p : Program) (i : Interface) (hwf : p.wf = true) :
    ((p.add_interface i).1.isOk = false ↔
      (containsIM p.identifiers i.name = true ∨ is_reserved_name i.name = true ∨
       (∃ pr ∈ i.members, is_reserved_name pr.1 = true) ∨
       (∃ pr ∈ i.members, ∃ mid, pr.2 = .interface mid ∧
          containsIM p.interfaces mid = false))) ∧
    ((p.add_interface i).1.isOk = true →
      (p.add_interface i).2.get_interface i.name = .ok i) := by
  by_cases h1 : containsIM p.identifiers i.name = true
  · constructor
    · unfold Program.add_interface
      simp [Program.is_unique_name, h1]
      rfl
    · unfold Program.add_interface
      simp [Program.is_unique_name, h1, Except.isOk, Except.toBool]
  · rw [Bool.not_eq_true] at h1
    by_cases h2 : is_reserved_name i.name = true
    · constructor
      · unfold Program.add_interface
        simp [Program.is_unique_name, h1, h2]
        rfl
      · unfold Program.add_interface
        simp [Program.is_unique_name, h1, h2, Except.isOk, Except.toBool]
    · rw [Bool.not_eq_true] at h2
      cases h3 : checkInterfaceMembers p i.members with
      | some msg =>
          have hbad : ¬ ∀ pr ∈ i.members, is_reserved_name pr.1 = false ∧
              ∀ mid, pr.2 = .interface mid → containsIM p.interfaces mid = true := by
            intro hall
            rw [(checkInterfaceMembers_none_iff p i.members).mpr hall] at h3
            cases h3
          push_neg at hbad
          obtain ⟨pr, hmem, hfail⟩ := hbad
          constructor
          · unfold Program.add_interface
            simp only [Program.is_unique_name, h1, h2, h3, Bool.not_false, Bool.not_true,
              if_false, Bool.false_eq_true, if_true]
            simp only [Except.isOk, Except.toBool, true_iff]
            by_cases hres : is_reserved_name pr.1 = true
            · exact Or.inr (Or.inr (Or.inl ⟨pr, hmem, hres⟩))
            · rw [Bool.not_eq_true] at hres
              obtain ⟨mid, hmid, hcon⟩ := hfail hres
              refine Or.inr (Or.inr (Or.inr ⟨pr, hmem, mid, hmid, ?_⟩))
              exact Bool.eq_false_iff.mpr hcon
          · unfold Program.add_interface
            simp [Program.is_unique_name, h1, h2, h3, Except.isOk, Except.toBool]
      | none =>
          have h4 := (wf_map_not_contains p hwf h1).1
          rw [add_interface_success p i h1 h2 h3 h4]
          constructor
          · simp only [Except.isOk, Except.toBool]
            constructor
            · intro hfalse
              cases hfalse
            · intro hcond
              rcases hcond with hc | hc | hc | hc
              · rw [hc] at h1; cases h1
              · rw [hc] at h2; cases h2
              · obtain ⟨pr, hmem, hres⟩ := hc
                have := ((checkInterfaceMembers_none_iff p i.members).mp h3 pr hmem).1
                rw [hres] at this; cases this
              · obtain ⟨pr, hmem, mid, hmid, hcon⟩ := hc
                have := ((checkInterfaceMembers_none_iff p i.members).mp h3 pr hmem).2 mid hmid
                rw [hcon] at this; cases this
          · intro _
            simp only [Program.get_interface]
            rw [lookupIM_append_right h4]

/-- Witness for C3: adding `sampleInterface` to the empty program succeeds
and the interface is retrievable. -/
theorem add_interface_spec_witness :
    (Program.new.add_interface sampleInterface).2.get_interface sampleInterface.name =
      .ok sampleInterface :=
  (add_interface_spec Program.new sampleInterface (by decide)).2 (by decide)

/-- C9: an output register that is also an input register produces only a
diagnostic and is never by itself a reason for failure — for any program
and any fresh, unreserved name, a function whose output register `r0` is
its input register passes `add_function`, the diagnostic is emitted, and
the function is registered. -/
theorem add_function_nonfatal_input_output (p : Program) (n : Identifier) (t : LiteralType)
    (f : FunctionDef) (hwf : p.wf = true) (hu : containsIM p.identifiers n = false)
    (hr : is_reserved_name n = false)
    (hf : f = ⟨n, [(.locator 0, .publicT (.literal t))], [],
               [(.locator 0, .publicT (.literal t))]⟩) :
    (p.add_function f).1.1 = .ok () ∧
    (p.add_function f).2 =
      ["Output is an input register, ensure this is intended behavior"] ∧
    (p.add_function f).1.2.get_function n = .ok f := by
  subst hf
  have hin : addInputs p RegisterTypes.new [(.locator 0, .publicT (.literal t))] =
      .ok ⟨[(0, .publicT (.literal t))], [], []⟩ := rfl
  have hins : addInstructions p ⟨[(0, .publicT (.literal t))], [], []⟩ [] =
      .ok ⟨[(0, .publicT (.literal t))], [], []⟩ := rfl
  have hout : addOutputs p ⟨[(0, .publicT (.literal t))], [], []⟩ []
      [(.locator 0, .publicT (.literal t))] =
      (.ok ⟨[(0, .publicT (.literal t))], [], [(.locator 0, .publicT (.literal t))]⟩,
       ["Output is an input register, ensure this is intended behavior"]) := by
    unfold addOutputs
    simp only [RegisterTypes.is_input, Register.loc, List.any_cons, List.any_nil,
      decide_True, Bool.or_false, if_true, RegisterTypes.get_type, lookupNat,
      if_pos rfl, checkValueTypeDefined, checkOutputType, ValueType.toRegisterType,
      RegisterTypes.add_output]
    rfl
  have h4 := (wf_map_not_contains p hwf hu).2.2.1
  have h5 := (wf_map_not_contains p hwf hu).2.2.2
  rw [add_function_success p _ _ _ _ _ hu hr hin hins hout h4 h5]
  refine ⟨rfl, rfl, ?_⟩
  simp only [Program.get_function]
  rw [lookupIM_append_right h4]

/-- Witness for C9 at the empty program with the name `foo` and kind
`field`. -/
theorem add_function_nonfatal_input_output_witness :
    (Program.new.add_function ⟨"foo", [(.locator 0, .publicT (.literal .field))], [],
        [(.locator 0, .publicT (.literal .field))]⟩).1.1 = .ok () ∧
    (Program.new.add_function ⟨"foo", [(.locator 0, .publicT (.literal .field))], [],
        [(.locator 0, .publicT (.literal .field))]⟩).2 =
      ["Output is an input register, ensure this is intended behavior"] ∧
    (Program.new.add_function ⟨"foo", [(.locator 0, .publicT (.literal .field))], [],
        [(.locator 0, .publicT (.literal .field))]⟩).1.2.get_function "foo" =
      .ok ⟨"foo", [(.locator 0, .publicT (.literal .field))], [],
          [(.locator 0, .publicT (.literal .field))]⟩ :=
  add_function_nonfatal_input_output Program.new "foo" .field _
    (by decide) (by decide) (by decide) rfl

/-- C10: an interface with an empty member list is accepted — for any
program satisfying the key-soundness invariant and any fresh, unreserved
name, `add_interface` succeeds and the empty interface is retrievable. -/
theorem add_interface_empty_members (p : Program) (i : Interface) (hwf : p.wf = true)
    (hm : i.members = []) (hu : containsIM p.identifiers i.name = false)
    (hr : is_reserved_name i.name = false) :
    (p.add_interface i).1 = .ok () ∧
    (p.add_interface i).2.get_interface i.name = .ok i ∧
    (p.add_interface i).2.contains_interface i.name = true := by
  have h3 : checkInterfaceMembers p i.members = none := by rw [hm]; rfl
  have h4 := (wf_map_not_contains p hwf hu).1
  rw [add_interface_success p i hu hr h3 h4]
  refine ⟨rfl, ?_, ?_⟩
  · simp only [Program.get_interface]
    rw [lookupIM_append_right h4]
  · simp only [Program.contains_interface, containsIM]
    rw [lookupIM_append_right h4]
    rfl

/-- Witness for C10 at the empty program with an empty interface named
`point`. -/
theorem add_interface_empty_members_witness :
    (Program.new.add_interface ⟨"point", []⟩).1 = .ok () ∧
    (Program.new.add_interface ⟨"point", []⟩).2.get_interface "point" = .ok ⟨"point", []⟩ ∧
    (Program.new.add_interface ⟨"point", []⟩).2.contains_interface "point" = true :=
  add_interface_empty_members Program.new ⟨"point", []⟩ (by decide) rfl (by decide) (by decide)

/-! Token-level parsing lemmas. -/

theorem stripLead_append (pat rest : List Char) : stripLead pat (pat ++ rest) = some rest := by
  induction pat with
  | nil => rfl
  | cons c cs ih => simp [stripLead, ih]

theorem takeWhile_all_append {p : Char → Bool} {l1 l2 : List Char}
    (h1 : l1.all p = true)
    (h2 : ∀ c cs, l2 = c :: cs → p c = false) :
    (l1 ++ l2).takeWhile p = l1 ∧ (l1 ++ l2).dropWhile p = l2 := by
  induction l1 with
  | nil =>
      cases l2 with
      | nil => exact ⟨rfl, rfl⟩
      | cons c cs =>
          have := h2 c cs rfl
          simp [List.takeWhile, List.dropWhile, this]
  | cons c cs ih =>
      rw [List.all_cons, Bool.and_eq_true] at h1
      have := ih h1.2
      simp [List.takeWhile, List.dropWhile, h1.1, this.1, this.2]

theorem takeTok_append {tok rest : List Char} (h1 : tok.all tokChar = true)
    (h2 : tokBoundary rest = true) : takeTok (tok ++ rest) = (tok, rest) := by
  cases rest with
  | nil =>
      have := @takeWhile_all_append _ tok [] h1 (by intro c cs hEq; cases hEq)
      unfold takeTok
      rw [this.1, this.2]
  | cons c cs =>
      have hc : tokChar c = false := by
        simp only [tokBoundary, Bool.not_eq_true'] at h2
        exact h2
      have := @takeWhile_all_append _ tok (c :: cs) h1 ?_
      · unfold takeTok
        rw [this.1, this.2]
      · intro c' cs' hEq
        injection hEq with hq1 _
        exact hq1 ▸ hc

theorem string_eta (s : String) : String.mk s.data = s := by
  cases s
  rfl

theorem string_data_inj {a b : String} (h : a.data = b.data) : a = b := by
  cases a
  cases b
  simp at h
  rw [h]

theorem parseIdentTok_valid {s : Identifier} (h : validIdent s = true) :
    parseIdentTok s.data = some s := by
  cases hd : s.data with
  | nil =>
      unfold validIdent at h
      rw [hd] at h
      cases h
  | cons c cs =>
      unfold validIdent at h
      rw [hd] at h
      have h' : (c.isAlpha && (c :: cs).all identChar) = true := h
      have hstep : parseIdentTok (c :: cs) = some ⟨c :: cs⟩ := by
        show (if (c.isAlpha && (c :: cs).all identChar) = true
              then some (String.mk (c :: cs)) else none) = some (String.mk (c :: cs))
        rw [if_pos h']
      rw [hstep, ← hd, string_eta]

theorem identChar_tokChar {c : Char} (h : identChar c = true) : tokChar c = true := by
  simp [tokChar, h]

theorem all_identChar_tokChar {l : List Char} (h : l.all identChar = true) :
    l.all tokChar = true := by
  rw [List.all_eq_true] at h ⊢
  intro c hc
  exact identChar_tokChar (h c hc)

theorem identChar_not_dot {c : Char} (h : identChar c = true) : (c = '.') = False := by
  simp only [eq_iff_iff, iff_false]
  intro hEq
  subst hEq
  simp [identChar] at h

theorem all_identChar_dotFree {l : List Char} (h : l.all identChar = true) :
    dotFree l = true := by
  rw [List.all_eq_true] at h
  rw [dotFree, List.all_eq_true]
  intro c hc
  have := identChar_not_dot (h c hc)
  simp [this]

theorem digit_identChar {c : Char} (h : c.isDigit = true) : identChar c = true := by
  simp [identChar, h]

theorem natChars_all_digits (n : Nat) : (natChars n).all Char.isDigit = true := by
  induction n using natChars.induct with
  | case1 n h =>
      rw [natChars, dif_pos h]
      interval_cases n <;> decide
  | case2 n h ih =>
      rw [natChars, dif_neg h]
      rw [List.all_append, ih]
      have h10 : n % 10 < 10 := Nat.mod_lt _ (by omega)
      have : (digitChar (n % 10)).isDigit = true := by
        set m := n % 10 with hm
        interval_cases m <;> decide
      simp [this]

theorem natChars_ne_nil (n : Nat) : natChars n ≠ [] := by
  induction n using natChars.induct with
  | case1 n h => rw [natChars, dif_pos h]; simp
  | case2 n h ih => rw [natChars, dif_neg h]; simp

theorem digitVal_digitChar {n : Nat} (h : n < 10) : digitVal (digitChar n) = n := by
  interval_cases n <;> decide

theorem foldl_natChars (n : Nat) :
    ∀ acc, (natChars n).foldl (fun acc c => acc * 10 + digitVal c) acc =
      acc * 10 ^ (natChars n).length + n := by
  induction n using natChars.induct with
  | case1 n h =>
      intro acc
      rw [natChars, dif_pos h]
      simp [List.foldl, digitVal_digitChar h]
  | case2 n h ih =>
      intro acc
      rw [natChars, dif_neg h]
      rw [List.foldl_append, ih]
      simp only [List.foldl]
      have h10 : n % 10 < 10 := Nat.mod_lt _ (by omega)
      rw [digitVal_digitChar h10]
      rw [List.length_append]
      simp only [List.length_cons, List.length_nil]
      rw [Nat.pow_succ]
      have := Nat.div_add_mod n 10
      ring_nf
      omega

theorem parseNatTok_natChars (n : Nat) : parseNatTok (natChars n) = some n := by
  unfold parseNatTok
  have hne : (natChars n).isEmpty = false := by
    cases h : natChars n with
    | nil => exact absurd h (natChars_ne_nil n)
    | cons c cs => rfl
  rw [hne]
  simp only [Bool.false_eq_true, if_false]
  rw [natChars_all_digits n]
  simp only [if_true]
  rw [foldl_natChars n 0]
  simp

theorem bool_pred_false {c : Char} {q : Char → Prop} [DecidablePred q]
    (h : (!(decide (q c))) = true) : ¬ q c := by
  simp at h
  exact h

theorem digit_not_dot {c : Char} (h : c.isDigit = true) : ¬ (c = '.') := by
  intro hEq
  subst hEq
  simp [Char.isDigit] at h

theorem natChars_dotFree (n : Nat) : dotFree (natChars n) = true := by
  rw [dotFree, List.all_eq_true]
  intro c hc
  have hd := (List.all_eq_true.mp (natChars_all_digits n)) c hc
  simp [digit_not_dot hd]

theorem validIdent_dotFree {s : Identifier} (h : validIdent s = true) :
    dotFree s.data = true := by
  unfold validIdent at h
  cases hd : s.data with
  | nil => rw [hd] at h; cases h
  | cons c cs =>
      rw [hd] at h
      have h' : (c.isAlpha && (c :: cs).all identChar) = true := h
      rw [Bool.and_eq_true] at h'
      exact all_identChar_dotFree h'.2

theorem splitDots_cons (c : Char) (rest : List Char) :
    splitDots (c :: rest) =
      if c = '.' then [] :: splitDots rest
      else
        match splitDots rest with
        | seg :: segs => (c :: seg) :: segs
        | [] => [[c]] := rfl

theorem splitDots_dotFree {seg : List Char} (h : dotFree seg = true) : splitDots seg = [seg] := by
  induction seg with
  | nil => rfl
  | cons c cs ih =>
      rw [dotFree, List.all_cons, Bool.and_eq_true] at h
      have hc : ¬ (c = '.') := bool_pred_false h.1
      rw [splitDots_cons, if_neg hc, ih h.2]

theorem splitDots_cons_dot {b : List Char} : ∀ {a : List Char}, dotFree a = true →
    splitDots (a ++ '.' :: b) = a :: splitDots b := by
  intro a
  induction a with
  | nil =>
      intro _
      show splitDots ('.' :: b) = [] :: splitDots b
      rw [splitDots_cons, if_pos rfl]
  | cons c cs ih =>
      intro h
      rw [dotFree, List.all_cons, Bool.and_eq_true] at h
      have hc : ¬ (c = '.') := bool_pred_false h.1
      show splitDots (c :: (cs ++ '.' :: b)) = (c :: cs) :: splitDots b
      rw [splitDots_cons, if_neg hc, ih h.2]

theorem splitDots_chain : ∀ (path : List Identifier) (digs : List Char), dotFree digs = true →
    (∀ f ∈ path, dotFree f.data = true) →
    splitDots (digs ++ (path.map (fun f => '.' :: f.data)).flatten) =
      digs :: path.map String.data := by
  intro path
  induction path with
  | nil =>
      intro digs h _
      simp only [List.map_nil, List.flatten_nil, List.append_nil]
      rw [splitDots_dotFree h]
  | cons f fs ih =>
      intro digs h hall
      simp only [List.map_cons, List.flatten_cons]
      have hshape : digs ++ (('.' :: f.data) ++ (fs.map (fun f => '.' :: f.data)).flatten) =
          digs ++ '.' :: (f.data ++ (fs.map (fun f => '.' :: f.data)).flatten) := by
        simp
      rw [hshape, splitDots_cons_dot h,
        ih f.data (hall f (List.mem_cons_self _ _)) (fun g hg => hall g (List.mem_cons_of_mem _ hg))]

theorem parsePathSegs_map : ∀ {path : List Identifier},
    (∀ f ∈ path, validIdent f = true) →
    parsePathSegs (path.map String.data) = some path := by
  intro path
  induction path with
  | nil => intro _; rfl
  | cons f fs ih =>
      intro hall
      show parsePathSegs (f.data :: fs.map String.data) = some (f :: fs)
      unfold parsePathSegs
      rw [parseIdentTok_valid (hall f (List.mem_cons_self _ _)),
        ih (fun g hg => hall g (List.mem_cons_of_mem _ hg))]

theorem parseRegister_chars {r : Register} (h : validReg r = true) :
    parseRegister r.chars = some r := by
  cases r with
  | locator n =>
      show parseRegister ('r' :: natChars n) = some (.locator n)
      simp [parseRegister, splitDots_dotFree (natChars_dotFree n), parseNatTok_natChars]
  | member n path =>
      rw [validReg, Bool.and_eq_true] at h
      have hpath : ∀ f ∈ path, validIdent f = true := by
        intro f hf
        have := List.all_eq_true.mp h.2 f hf
        rw [okName, Bool.and_eq_true] at this
        exact this.1
      cases path with
      | nil => simp at h
      | cons f fs =>
          have hsplit := splitDots_chain (f :: fs) (natChars n) (natChars_dotFree n)
            (fun g hg => validIdent_dotFree (hpath g hg))
          have hsegs := parsePathSegs_map hpath
          show parseRegister
              ('r' :: (natChars n ++ ((f :: fs).map (fun f => '.' :: f.data)).flatten)) =
            some (.member n (f :: fs))
          simp only [List.map_cons, List.flatten_cons, List.cons_append] at hsplit hsegs
          simp [parseRegister, hsplit, parseNatTok_natChars, hsegs]

/-! Kind-name, operand and value-type token lemmas. -/

theorem kindName_validIdent (k : LiteralType) : validIdent k.kindName = true := by
  cases k <;> decide

theorem kindName_dotFree (k : LiteralType) : dotFree k.kindName.data = true := by
  cases k <;> decide

theorem kindOfName_kindName (k : LiteralType) : kindOfName k.kindName.data = some k := by
  cases k <;> rfl

theorem kindLookup_none : ∀ (tbl : List (String × LiteralType)) (seg : List Char),
    (∀ pr ∈ tbl, pr.1.data ≠ seg) → kindLookup tbl seg = none := by
  intro tbl
  induction tbl with
  | nil => intro seg _; rfl
  | cons pr rest ih =>
      intro seg hall
      obtain ⟨s, k⟩ := pr
      have hs : s.data ≠ seg := hall (s, k) (List.mem_cons_self _ _)
      unfold kindLookup
      rw [if_neg (fun hEq => hs hEq.symm)]
      exact ih seg (fun q hq => hall q (List.mem_cons_of_mem _ hq))

theorem kindTable_reserved (pr : String × LiteralType) (h : pr ∈ kindTable) :
    is_reserved_name pr.1 = true := by
  fin_cases h <;> decide

theorem okName_kindOfName_none {id : Identifier} (h : okName id = true) :
    kindOfName id.data = none := by
  rw [okName, Bool.and_eq_true] at h
  apply kindLookup_none
  intro pr hpr hEq
  have hid : pr.1 = id := string_data_inj hEq
  have := kindTable_reserved pr hpr
  rw [hid] at this
  rw [this] at h
  simp at h

theorem plaintextTypeOfName_text {pt : PlaintextType} (h : validPT pt = true) :
    plaintextTypeOfName pt.text = pt := by
  cases pt with
  | literal k =>
      show plaintextTypeOfName k.kindName = .literal k
      unfold plaintextTypeOfName
      rw [kindOfName_kindName k]
  | interface id =>
      show plaintextTypeOfName id = .interface id
      unfold plaintextTypeOfName
      rw [okName_kindOfName_none h]

theorem head_append_ne_nil {a b : List Char} (h : a ≠ []) : (a ++ b).head? = a.head? := by
  cases a with
  | nil => exact absurd rfl h
  | cons c cs => rfl

theorem natChars_head_digit (n : Nat) : ∃ c cs, natChars n = c :: cs ∧ c.isDigit = true := by
  cases h : natChars n with
  | nil => exact absurd h (natChars_ne_nil n)
  | cons c cs =>
      refine ⟨c, cs, rfl, ?_⟩
      have := List.all_eq_true.mp (natChars_all_digits n) c
      rw [h] at this
      exact this (List.mem_cons_self _ _)

theorem digits_append_ne_word {n : Nat} {x w : List Char}
    (hw : digitBoundary w = true) : natChars n ++ x ≠ w := by
  intro hEq
  obtain ⟨c, cs, hn, hd⟩ := natChars_head_digit n
  have h1 : (natChars n ++ x).head? = some c := by
    rw [head_append_ne_nil (natChars_ne_nil n), hn]
    rfl
  rw [hEq] at h1
  cases w with
  | nil => cases h1
  | cons c' cs' =>
      simp only [List.head?, Option.some.injEq] at h1
      have hw2 : (!(c'.isDigit)) = true := hw
      rw [h1, hd] at hw2
      cases hw2

theorem kind_boundary (k : LiteralType) : digitBoundary k.kindName.data = true := by
  cases k <;> rfl

theorem digitBoundary_head {w : List Char} (hw : digitBoundary w = true) :
    ∀ c cs, w = c :: cs → c.isDigit = false := by
  intro c cs hEq
  subst hEq
  have hw2 : (!(c.isDigit)) = true := hw
  simp only [Bool.not_eq_true'] at hw2
  exact hw2

theorem parseOperandTok_chars {op : Operand} (h : validOperand op = true) :
    parseOperandTok op.chars = some op := by
  cases op with
  | literal l =>
      cases l with
      | boolean b => cases b <;> rfl
      | num k n =>
          obtain ⟨c, cs, hn, hd⟩ := natChars_head_digit n
          show parseOperandTok (natChars n ++ k.kindName.data) = some (.literal (.num k n))
          have hsplit := @takeWhile_all_append Char.isDigit (natChars n) k.kindName.data
            (natChars_all_digits n) (digitBoundary_head (kind_boundary k))
          have hcons : natChars n ++ k.kindName.data = c :: (cs ++ k.kindName.data) := by
            rw [hn]
            rfl
          rw [hcons]
          simp only [parseOperandTok]
          rw [if_neg, if_neg]
          · have hc1 : c.isDigit = true := hd
            rw [hc1]
            simp only [if_true]
            rw [← hcons, hsplit.1, hsplit.2, parseNatTok_natChars n, kindOfName_kindName k]
          · rw [← hcons]
            exact digits_append_ne_word (by rfl)
          · rw [← hcons]
            exact digits_append_ne_word (by rfl)
  | register r =>
      have hform : ∃ y, r.chars = 'r' :: y := by
        cases r with
        | locator n => exact ⟨natChars n, rfl⟩
        | member n path =>
            exact ⟨natChars n ++ (path.map (fun f => '.' :: f.data)).flatten, rfl⟩
      obtain ⟨y, hy⟩ := hform
      have hoc : Operand.chars (.register r) = r.chars := rfl
      rw [hoc, hy]
      simp only [parseOperandTok]
      rw [if_neg, if_neg]
      · have hdig : ('r').isDigit = false := by decide
        rw [hdig]
        simp only [Bool.false_eq_true, if_false]
        rw [← hy, parseRegister_chars h]
      · intro hEq
        injection hEq with h1 _
        exact absurd h1 (by decide)
      · intro hEq
        injection hEq with h1 _
        exact absurd h1 (by decide)

theorem validPT_dotFree {pt : PlaintextType} (h : validPT pt = true) :
    dotFree pt.text.data = true := by
  cases pt with
  | literal k => exact kindName_dotFree k
  | interface id =>
      rw [validPT, okName, Bool.and_eq_true] at h
      exact validIdent_dotFree h.1

theorem parseIdentTok_ptText {pt : PlaintextType} (h : validPT pt = true) :
    parseIdentTok pt.text.data = some pt.text := by
  cases pt with
  | literal k => exact parseIdentTok_valid (kindName_validIdent k)
  | interface id =>
      rw [validPT, okName, Bool.and_eq_true] at h
      exact parseIdentTok_valid h.1

theorem parseValueTypeTok_pair {tok b m : List Char} (h : splitDots tok = [b, m]) :
    parseValueTypeTok tok = parseVTSegs b m := by
  unfold parseValueTypeTok
  rw [h]

theorem parseEntryTypeTok_pair {tok b m : List Char} (h : splitDots tok = [b, m]) :
    parseEntryTypeTok tok = parseETSegs b m := by
  unfold parseEntryTypeTok
  rw [h]

theorem valueTypeText_split {pt : PlaintextType} (hpt : validPT pt = true) (suffix mode : String)
    (hsf : suffix.data = '.' :: mode.data) (hmf : dotFree mode.data = true) :
    splitDots ((pt.text ++ suffix).data) = [pt.text.data, mode.data] := by
  rw [String.data_append, hsf, splitDots_cons_dot (validPT_dotFree hpt),
    splitDots_dotFree hmf]

theorem parseValueTypeTok_text {vt : ValueType} (h : validVT vt = true) :
    parseValueTypeTok vt.text.data = some vt := by
  cases vt with
  | constant pt =>
      have hpt : validPT pt = true := h
      rw [show ValueType.text (.constant pt) = pt.text ++ ".constant" from rfl,
        parseValueTypeTok_pair (valueTypeText_split hpt ".constant" "constant" rfl rfl)]
      unfold parseVTSegs
      rw [parseIdentTok_ptText hpt]
      show some (ValueType.constant (plaintextTypeOfName pt.text)) = some (ValueType.constant pt)
      rw [plaintextTypeOfName_text hpt]
  | publicT pt =>
      have hpt : validPT pt = true := h
      rw [show ValueType.text (.publicT pt) = pt.text ++ ".public" from rfl,
        parseValueTypeTok_pair (valueTypeText_split hpt ".public" "public" rfl rfl)]
      unfold parseVTSegs
      rw [parseIdentTok_ptText hpt]
      show some (ValueType.publicT (plaintextTypeOfName pt.text)) = some (ValueType.publicT pt)
      rw [plaintextTypeOfName_text hpt]
  | privateT pt =>
      have hpt : validPT pt = true := h
      rw [show ValueType.text (.privateT pt) = pt.text ++ ".private" from rfl,
        parseValueTypeTok_pair (valueTypeText_split hpt ".private" "private" rfl rfl)]
      unfold parseVTSegs
      rw [parseIdentTok_ptText hpt]
      show some (ValueType.privateT (plaintextTypeOfName pt.text)) = some (ValueType.privateT pt)
      rw [plaintextTypeOfName_text hpt]
  | record id =>
      have hid : okName id = true := h
      have hvI : validPT (.interface id) = true := h
      rw [show ValueType.text (.record id) = PlaintextType.text (.interface id) ++ ".record"
          from rfl,
        parseValueTypeTok_pair (valueTypeText_split hvI ".record" "record" rfl rfl)]
      unfold parseVTSegs
      rw [parseIdentTok_ptText hvI]
      rfl

theorem parseEntryTypeTok_text {et : EntryType} (h : validPT et.inner = true) :
    parseEntryTypeTok et.text.data = some et := by
  cases et with
  | constant pt =>
      have hpt : validPT pt = true := h
      rw [show EntryType.text (.constant pt) = pt.text ++ ".constant" from rfl,
        parseEntryTypeTok_pair (valueTypeText_split hpt ".constant" "constant" rfl rfl)]
      unfold parseETSegs
      rw [parseIdentTok_ptText hpt]
      show some (EntryType.constant (plaintextTypeOfName pt.text)) = some (EntryType.constant pt)
      rw [plaintextTypeOfName_text hpt]
  | publicT pt =>
      have hpt : validPT pt = true := h
      rw [show EntryType.text (.publicT pt) = pt.text ++ ".public" from rfl,
        parseEntryTypeTok_pair (valueTypeText_split hpt ".public" "public" rfl rfl)]
      unfold parseETSegs
      rw [parseIdentTok_ptText hpt]
      show some (EntryType.publicT (plaintextTypeOfName pt.text)) = some (EntryType.publicT pt)
      rw [plaintextTypeOfName_text hpt]
  | privateT pt =>
      have hpt : validPT pt = true := h
      rw [show EntryType.text (.privateT pt) = pt.text ++ ".private" from rfl,
        parseEntryTypeTok_pair (valueTypeText_split hpt ".private" "private" rfl rfl)]
      unfold parseETSegs
      rw [parseIdentTok_ptText hpt]
      show some (EntryType.privateT (plaintextTypeOfName pt.text)) = some (EntryType.privateT pt)
      rw [plaintextTypeOfName_text hpt]

/-! Line-level parsing lemmas. -/

theorem validIdent_all_identChar {s : Identifier} (h : validIdent s = true) :
    s.data.all identChar = true := by
  unfold validIdent at h
  cases hd : s.data with
  | nil => rw [hd] at h; cases h
  | cons c cs =>
      rw [hd] at h
      have h' : (c.isAlpha && (c :: cs).all identChar) = true := h
      rw [Bool.and_eq_true] at h'
      exact h'.2

theorem validIdent_all_tokChar {s : Identifier} (h : validIdent s = true) :
    s.data.all tokChar = true :=
  all_identChar_tokChar (validIdent_all_identChar h)

theorem okName_all_tokChar {s : Identifier} (h : okName s = true) :
    s.data.all tokChar = true := by
  rw [okName, Bool.and_eq_true] at h
  exact validIdent_all_tokChar h.1

theorem kindName_all_tokChar (k : LiteralType) : k.kindName.data.all tokChar = true := by
  cases k <;> decide

theorem ptText_all_tokChar {pt : PlaintextType} (h : validPT pt = true) :
    pt.text.data.all tokChar = true := by
  cases pt with
  | literal k => exact kindName_all_tokChar k
  | interface id => exact okName_all_tokChar h

theorem vtText_all_tokChar {vt : ValueType} (h : validVT vt = true) :
    vt.text.data.all tokChar = true := by
  cases vt with
  | constant pt =>
      rw [show ValueType.text (.constant pt) = pt.text ++ ".constant" from rfl,
        String.data_append, List.all_append, ptText_all_tokChar h]
      decide
  | publicT pt =>
      rw [show ValueType.text (.publicT pt) = pt.text ++ ".public" from rfl,
        String.data_append, List.all_append, ptText_all_tokChar h]
      decide
  | privateT pt =>
      rw [show ValueType.text (.privateT pt) = pt.text ++ ".private" from rfl,
        String.data_append, List.all_append, ptText_all_tokChar h]
      decide
  | record id =>
      rw [show ValueType.text (.record id) = id ++ ".record" from rfl,
        String.data_append, List.all_append, okName_all_tokChar h]
      decide

theorem etText_all_tokChar {et : EntryType} (h : validPT et.inner = true) :
    et.text.data.all tokChar = true := by
  cases et with
  | constant pt =>
      have h' : validPT pt = true := h
      rw [show EntryType.text (.constant pt) = pt.text ++ ".constant" from rfl,
        String.data_append, List.all_append, ptText_all_tokChar h']
      decide
  | publicT pt =>
      have h' : validPT pt = true := h
      rw [show EntryType.text (.publicT pt) = pt.text ++ ".public" from rfl,
        String.data_append, List.all_append, ptText_all_tokChar h']
      decide
  | privateT pt =>
      have h' : validPT pt = true := h
      rw [show EntryType.text (.privateT pt) = pt.text ++ ".private" from rfl,
        String.data_append, List.all_append, ptText_all_tokChar h']
      decide

theorem natChars_all_tokChar (n : Nat) : (natChars n).all tokChar = true := by
  rw [List.all_eq_true]
  intro c hc
  exact identChar_tokChar (digit_identChar (List.all_eq_true.mp (natChars_all_digits n) c hc))

theorem register_chars_all_tokChar {r : Register} (h : validReg r = true) :
    r.chars.all tokChar = true := by
  cases r with
  | locator n =>
      show (('r' :: natChars n).all tokChar) = true
      rw [List.all_cons, natChars_all_tokChar n]
      decide
  | member n path =>
      rw [validReg, Bool.and_eq_true] at h
      show (('r' :: (natChars n ++ (path.map (fun f => '.' :: f.data)).flatten)).all tokChar) = true
      rw [List.all_cons, List.all_append, natChars_all_tokChar n]
      have hpath : (path.map (fun f => '.' :: f.data)).flatten.all tokChar = true := by
        rw [List.all_eq_true]
        intro c hc
        rw [List.mem_flatten] at hc
        obtain ⟨piece, hpiece, hcp⟩ := hc
        rw [List.mem_map] at hpiece
        obtain ⟨f, hf, hfp⟩ := hpiece
        have hok := List.all_eq_true.mp h.2 f hf
        rw [okName, Bool.and_eq_true] at hok
        rw [← hfp] at hcp
        rcases List.mem_cons.mp hcp with hcp | hcp
        · subst hcp; decide
        · exact List.all_eq_true.mp (validIdent_all_tokChar hok.1) c hcp
      rw [hpath]
      decide

theorem operand_chars_all_tokChar {op : Operand} (h : validOperand op = true) :
    op.chars.all tokChar = true := by
  cases op with
  | literal l =>
      cases l with
      | boolean b => cases b <;> decide
      | num k n =>
          show ((natChars n ++ k.kindName.data).all tokChar) = true
          rw [List.all_append, natChars_all_tokChar n, kindName_all_tokChar k]
          rfl
  | register r => exact register_chars_all_tokChar h

theorem parseMemberLine_inv {f : Identifier} {t : PlaintextType}
    (h1 : okName f = true) (h2 : validPT t = true) :
    parseMemberLine (memberLine (f, t)) = some (f, t) := by
  have e1 : takeTok (f.data ++ (" as ".data ++ (t.text.data ++ ";".data))) =
      (f.data, " as ".data ++ (t.text.data ++ ";".data)) :=
    takeTok_append (okName_all_tokChar h1) rfl
  have e2 : takeTok (t.text.data ++ ";".data) = (t.text.data, ";".data) :=
    takeTok_append (ptText_all_tokChar h2) rfl
  have h1v : validIdent f = true := by
    rw [okName, Bool.and_eq_true] at h1
    exact h1.1
  simp only [memberLine, parseMemberLine, List.append_assoc, stripLead_append, e1, e2,
    parseIdentTok_valid h1v, parseIdentTok_ptText h2]
  simp [plaintextTypeOfName_text h2]

theorem parseEntryLine_inv {f : Identifier} {et : EntryType}
    (h1 : okName f = true) (h2 : validPT et.inner = true) :
    parseEntryLine (entryLine (f, et)) = some (f, et) := by
  have e1 : takeTok (f.data ++ (" as ".data ++ (et.text.data ++ ";".data))) =
      (f.data, " as ".data ++ (et.text.data ++ ";".data)) :=
    takeTok_append (okName_all_tokChar h1) rfl
  have e2 : takeTok (et.text.data ++ ";".data) = (et.text.data, ";".data) :=
    takeTok_append (etText_all_tokChar h2) rfl
  have h1v : validIdent f = true := by
    rw [okName, Bool.and_eq_true] at h1
    exact h1.1
  simp only [entryLine, parseEntryLine, List.append_assoc, stripLead_append, e1, e2,
    parseIdentTok_valid h1v, parseEntryTypeTok_text h2]
  simp

theorem parseIOTail_inv {r : Register} {vt : ValueType}
    (h1 : validReg r = true) (h2 : validVT vt = true) :
    parseIOTail (r.chars ++ (" as ".data ++ (vt.text.data ++ ";".data))) = some (r, vt) := by
  have e1 : takeTok (r.chars ++ (" as ".data ++ (vt.text.data ++ ";".data))) =
      (r.chars, " as ".data ++ (vt.text.data ++ ";".data)) :=
    takeTok_append (register_chars_all_tokChar h1) rfl
  have e2 : takeTok (vt.text.data ++ ";".data) = (vt.text.data, ";".data) :=
    takeTok_append (vtText_all_tokChar h2) rfl
  simp only [parseIOTail, e1, e2, stripLead_append, parseRegister_chars h1,
    parseValueTypeTok_text h2]
  simp

theorem parseAddTail_inv {a b : Operand} {d : Register}
    (h1 : validOperand a = true) (h2 : validOperand b = true) (h3 : validReg d = true) :
    parseAddTail (a.chars ++ (" ".data ++ (b.chars ++ (" into ".data ++ (d.chars ++ ";".data))))) =
      some (.add a b d) := by
  have e1 : takeTok (a.chars ++ (" ".data ++ (b.chars ++ (" into ".data ++ (d.chars ++ ";".data))))) =
      (a.chars, " ".data ++ (b.chars ++ (" into ".data ++ (d.chars ++ ";".data)))) :=
    takeTok_append (operand_chars_all_tokChar h1) rfl
  have e2 : takeTok (b.chars ++ (" into ".data ++ (d.chars ++ ";".data))) =
      (b.chars, " into ".data ++ (d.chars ++ ";".data)) :=
    takeTok_append (operand_chars_all_tokChar h2) rfl
  have e3 : takeTok (d.chars ++ ";".data) = (d.chars, ";".data) :=
    takeTok_append (register_chars_all_tokChar h3) rfl
  simp only [parseAddTail, e1, e2, e3, stripLead_append, parseOperandTok_chars h1,
    parseOperandTok_chars h2, parseRegister_chars h3]
  simp

theorem parseFunLine_input {r : Register} {vt : ValueType}
    (h1 : validReg r = true) (h2 : validVT vt = true) :
    parseFunLine (inputLine (r, vt)) = some (.inp r vt) := by
  simp only [inputLine, parseFunLine, List.append_assoc, stripLead_append]
  simp only [parseIOTail_inv h1 h2]

theorem parseFunLine_instr {i : Instruction} (h : validInstr i = true) :
    parseFunLine (instrLine i) = some (.ins i) := by
  cases i with
  | add a b d =>
      rw [validInstr, Bool.and_eq_true, Bool.and_eq_true] at h
      have hno : ∀ X : List Char, stripLead "    input ".data ("    add ".data ++ X) = none :=
        fun X => rfl
      simp only [instrLine, List.append_assoc, parseFunLine, hno, stripLead_append]
      simp only [parseAddTail_inv h.1.1 h.1.2 h.2]

theorem parseFunLine_output {r : Register} {vt : ValueType}
    (h1 : validReg r = true) (h2 : validVT vt = true) :
    parseFunLine (outputLine (r, vt)) = some (.outp r vt) := by
  have hno1 : ∀ X : List Char, stripLead "    input ".data ("    output ".data ++ X) = none :=
    fun X => rfl
  have hno2 : ∀ X : List Char, stripLead "    add ".data ("    output ".data ++ X) = none :=
    fun X => rfl
  simp only [outputLine, List.append_assoc, parseFunLine, hno1, hno2, stripLead_append]
  simp only [parseIOTail_inv h1 h2]

theorem mapParse_map {α β : Type} {f : List Char → Option α} {g : β → List Char}
    {tag : β → α} : ∀ {ls : List β}, (∀ x ∈ ls, f (g x) = some (tag x)) →
    mapParse f (ls.map g) = some (ls.map tag) := by
  intro ls
  induction ls with
  | nil => intro _; rfl
  | cons x xs ih =>
      intro hall
      show mapParse f (g x :: xs.map g) = some (tag x :: xs.map tag)
      unfold mapParse
      rw [hall x (List.mem_cons_self _ _), ih (fun y hy => hall y (List.mem_cons_of_mem _ hy))]

theorem mapParse_append {α : Type} {f : List Char → Option α} :
    ∀ {l1 l2 : List (List Char)} {as bs : List α},
    mapParse f l1 = some as → mapParse f l2 = some bs →
    mapParse f (l1 ++ l2) = some (as ++ bs) := by
  intro l1
  induction l1 with
  | nil =>
      intro l2 as bs h1 h2
      cases h1
      exact h2
  | cons l ls ih =>
      intro l2 as bs h1 h2
      have e : ∀ (L : List (List Char)),
          mapParse f (l :: L) =
            (match f l with
             | none => none
             | some a =>
                 match mapParse f L with
                 | none => none
                 | some xs => some (a :: xs)) := fun L => rfl
      rw [e] at h1
      cases hf : f l with
      | none => rw [hf] at h1; cases h1
      | some a =>
          rw [hf] at h1
          cases hm : mapParse f ls with
          | none => rw [hm] at h1; cases h1
          | some xs =>
              rw [hm] at h1
              have has : as = a :: xs := by
                injection h1 with h1'
                exact h1'.symm
              subst has
              rw [List.cons_append, e, hf, ih hm h2]
              rfl

theorem takeInputs_concat (is : List (Register × ValueType)) (rest : List FunLine)
    (h : ∀ r vt tl, rest ≠ FunLine.inp r vt :: tl) :
    takeInputs (is.map (fun pr => FunLine.inp pr.1 pr.2) ++ rest) = (is, rest) := by
  induction is with
  | nil =>
      cases rest with
      | nil => rfl
      | cons l tl =>
          cases l with
          | inp r vt => exact absurd rfl (h r vt tl)
          | ins i => rfl
          | outp r vt => rfl
  | cons pr prs ih =>
      show takeInputs (FunLine.inp pr.1 pr.2 :: (prs.map _ ++ rest)) = (pr :: prs, rest)
      unfold takeInputs
      rw [ih]

theorem takeInstrs_concat (xs : List Instruction) (rest : List FunLine)
    (h : ∀ i tl, rest ≠ FunLine.ins i :: tl) :
    takeInstrs (xs.map FunLine.ins ++ rest) = (xs, rest) := by
  induction xs with
  | nil =>
      cases rest with
      | nil => rfl
      | cons l tl =>
          cases l with
          | ins i => exact absurd rfl (h i tl)
          | inp r vt => rfl
          | outp r vt => rfl
  | cons i is ih =>
      show takeInstrs (FunLine.ins i :: (is.map _ ++ rest)) = (i :: is, rest)
      unfold takeInstrs
      rw [ih]

theorem takeOutputs_concat (os : List (Register × ValueType)) :
    takeOutputs (os.map (fun pr => FunLine.outp pr.1 pr.2)) = (os, []) := by
  induction os with
  | nil => rfl
  | cons pr prs ih =>
      show takeOutputs (FunLine.outp pr.1 pr.2 :: prs.map _) = (pr :: prs, [])
      unfold takeOutputs
      rw [ih]

theorem splitPhases_map (is : List (Register × ValueType)) (xs : List Instruction)
    (os : List (Register × ValueType)) :
    splitPhases (is.map (fun pr => FunLine.inp pr.1 pr.2) ++ xs.map FunLine.ins ++
        os.map (fun pr => FunLine.outp pr.1 pr.2)) = some (is, xs, os) := by
  have hin : ∀ r vt tl,
      xs.map FunLine.ins ++ os.map (fun pr => FunLine.outp pr.1 pr.2) ≠
        FunLine.inp r vt :: tl := by
    intro r vt tl hEq
    have hmem : FunLine.inp r vt ∈
        xs.map FunLine.ins ++ os.map (fun pr => FunLine.outp pr.1 pr.2) := by
      rw [hEq]
      exact List.mem_cons_self _ _
    rcases List.mem_append.mp hmem with hm | hm
    · obtain ⟨q, _, hq⟩ := List.mem_map.mp hm
      cases hq
    · obtain ⟨q, _, hq⟩ := List.mem_map.mp hm
      cases hq
  have hins : ∀ i tl,
      os.map (fun pr => FunLine.outp pr.1 pr.2) ≠ FunLine.ins i :: tl := by
    intro i tl hEq
    have hmem : FunLine.ins i ∈ os.map (fun pr => FunLine.outp pr.1 pr.2) := by
      rw [hEq]
      exact List.mem_cons_self _ _
    obtain ⟨q, _, hq⟩ := List.mem_map.mp hmem
    cases hq
  rw [List.append_assoc]
  simp only [splitPhases, takeInputs_concat is _ hin, takeInstrs_concat xs _ hins,
    takeOutputs_concat os]

theorem parseHeaderTail_inv {name : Identifier} (h : validIdent name = true) :
    parseHeaderTail (name.data ++ ":".data) = some name := by
  have e1 : takeTok (name.data ++ ":".data) = (name.data, ":".data) :=
    takeTok_append (validIdent_all_tokChar h) rfl
  simp only [parseHeaderTail, e1, parseIdentTok_valid h]
  simp

/-! Declaration-block parsing lemmas. -/

theorem parseDeclBlock_interface {i : Interface} (h : validDecl (.interface i) = true) :
    parseDeclBlock ("interface ".data ++ i.name.data ++ ":".data) (i.members.map memberLine) =
      some (.interface i) := by
  rw [validDecl, Bool.and_eq_true] at h
  have hname : validIdent i.name = true := by
    have := h.1
    rw [okName, Bool.and_eq_true] at this
    exact this.1
  have hmem : mapParse parseMemberLine (i.members.map memberLine) = some i.members := by
    have := @mapParse_map _ _ parseMemberLine memberLine (fun x => x) i.members ?_
    · simpa using this
    · intro x hx
      have hx' := List.all_eq_true.mp h.2 x hx
      rw [Bool.and_eq_true] at hx'
      obtain ⟨f, t⟩ := x
      exact parseMemberLine_inv hx'.1 hx'.2
  rw [List.append_assoc]
  simp only [parseDeclBlock, stripLead_append, parseHeaderTail_inv hname, hmem]

theorem parseDeclBlock_record {r : RecordType} (h : validDecl (.record r) = true) :
    parseDeclBlock ("record ".data ++ r.name.data ++ ":".data) (r.entries.map entryLine) =
      some (.record r) := by
  rw [validDecl, Bool.and_eq_true] at h
  have hname : validIdent r.name = true := by
    have := h.1
    rw [okName, Bool.and_eq_true] at this
    exact this.1
  have hent : mapParse parseEntryLine (r.entries.map entryLine) = some r.entries := by
    have := @mapParse_map _ _ parseEntryLine entryLine (fun x => x) r.entries ?_
    · simpa using this
    · intro x hx
      have hx' := List.all_eq_true.mp h.2 x hx
      rw [Bool.and_eq_true] at hx'
      obtain ⟨f, t⟩ := x
      exact parseEntryLine_inv hx'.1 hx'.2
  have hno : ∀ X : List Char, stripLead "interface ".data ("record ".data ++ X) = none :=
    fun X => rfl
  rw [List.append_assoc]
  simp only [parseDeclBlock, hno, stripLead_append, parseHeaderTail_inv hname, hent]

theorem parseDeclBlock_function {f : FunctionDef} (h : validDecl (.function f) = true) :
    parseDeclBlock ("function ".data ++ f.name.data ++ ":".data)
      (f.inputs.map inputLine ++ f.instructions.map instrLine ++ f.outputs.map outputLine) =
      some (.function f) := by
  rw [validDecl, Bool.and_eq_true, Bool.and_eq_true, Bool.and_eq_true] at h
  obtain ⟨⟨⟨hn, hin⟩, hinstr⟩, hout⟩ := h
  have hname : validIdent f.name = true := by
    rw [okName, Bool.and_eq_true] at hn
    exact hn.1
  have hmapin : mapParse parseFunLine (f.inputs.map inputLine) =
      some (f.inputs.map (fun pr => FunLine.inp pr.1 pr.2)) := by
    apply mapParse_map
    intro x hx
    have hx' := List.all_eq_true.mp hin x hx
    rw [Bool.and_eq_true] at hx'
    obtain ⟨r, vt⟩ := x
    exact parseFunLine_input hx'.1 hx'.2
  have hmapinstr : mapParse parseFunLine (f.instructions.map instrLine) =
      some (f.instructions.map FunLine.ins) := by
    apply mapParse_map
    intro x hx
    exact parseFunLine_instr (List.all_eq_true.mp hinstr x hx)
  have hmapout : mapParse parseFunLine (f.outputs.map outputLine) =
      some (f.outputs.map (fun pr => FunLine.outp pr.1 pr.2)) := by
    apply mapParse_map
    intro x hx
    have hx' := List.all_eq_true.mp hout x hx
    rw [Bool.and_eq_true] at hx'
    obtain ⟨r, vt⟩ := x
    exact parseFunLine_output hx'.1 hx'.2
  have hmap : mapParse parseFunLine
      (f.inputs.map inputLine ++ f.instructions.map instrLine ++ f.outputs.map outputLine) =
      some (f.inputs.map (fun pr => FunLine.inp pr.1 pr.2) ++ f.instructions.map FunLine.ins ++
        f.outputs.map (fun pr => FunLine.outp pr.1 pr.2)) :=
    mapParse_append (mapParse_append hmapin hmapinstr) hmapout
  have hno1 : ∀ X : List Char, stripLead "interface ".data ("function ".data ++ X) = none :=
    fun X => rfl
  have hno2 : ∀ X : List Char, stripLead "record ".data ("function ".data ++ X) = none :=
    fun X => rfl
  rw [List.append_assoc]
  simp only [parseDeclBlock, hno1, hno2, stripLead_append, parseHeaderTail_inv hname, hmap,
    splitPhases_map]

/-! Declaration-list parsing lemmas. -/

theorem takeWhile_append_gen {α : Type} {p : α → Bool} :
    ∀ {l1 l2 : List α}, (∀ x ∈ l1, p x = true) →
    (∀ x xs, l2 = x :: xs → p x = false) →
    (l1 ++ l2).takeWhile p = l1 ∧ (l1 ++ l2).dropWhile p = l2 := by
  intro l1
  induction l1 with
  | nil =>
      intro l2 _ h2
      cases l2 with
      | nil => exact ⟨rfl, rfl⟩
      | cons x xs =>
          have := h2 x xs rfl
          simp [List.takeWhile, List.dropWhile, this]
  | cons x xs ih =>
      intro l2 h1 h2
      have hx := h1 x (List.mem_cons_self _ _)
      have := ih (fun y hy => h1 y (List.mem_cons_of_mem _ hy)) h2
      simp [List.takeWhile, List.dropWhile, hx, this.1, this.2]

theorem parseDeclListAux_cons (fuel : Nat) (line : List Char) (rest : List (List Char)) :
    parseDeclListAux (fuel + 1) (line :: rest) =
      if line.isEmpty then parseDeclListAux fuel rest
      else
        match parseDeclBlock line (rest.takeWhile startsIndent) with
        | none => none
        | some d =>
            match parseDeclListAux fuel (rest.dropWhile startsIndent) with
            | none => none
            | some ds => some (d :: ds) := rfl

theorem decl_lines_shape (d : Decl) (h : validDecl d = true) :
    ∃ header body, d.lines = header :: body ∧ header.isEmpty = false ∧
      (∀ l ∈ body, startsIndent l = true) ∧ parseDeclBlock header body = some d := by
  cases d with
  | interface i =>
      refine ⟨_, _, rfl, rfl, ?_, parseDeclBlock_interface h⟩
      intro l hl
      obtain ⟨pr, _, hpr⟩ := List.mem_map.mp hl
      rw [← hpr]
      rfl
  | record r =>
      refine ⟨_, _, rfl, rfl, ?_, parseDeclBlock_record h⟩
      intro l hl
      obtain ⟨pr, _, hpr⟩ := List.mem_map.mp hl
      rw [← hpr]
      rfl
  | function f =>
      refine ⟨_, _, rfl, rfl, ?_, parseDeclBlock_function h⟩
      intro l hl
      rcases List.mem_append.mp hl with hl | hl
      · rcases List.mem_append.mp hl with hl | hl
        · obtain ⟨pr, _, hpr⟩ := List.mem_map.mp hl
          rw [← hpr]
          rfl
        · obtain ⟨i, _, hi⟩ := List.mem_map.mp hl
          rw [← hi]
          cases i
          rfl
      · obtain ⟨pr, _, hpr⟩ := List.mem_map.mp hl
        rw [← hpr]
        rfl

theorem declLinesAll_cons (d : Decl) (ds : List Decl) :
    declLinesAll (d :: ds) = (d.lines ++ [[]]) ++ declLinesAll ds := by
  unfold declLinesAll
  rw [List.map_cons, List.flatten_cons]

theorem parseDeclListAux_decls : ∀ (ds : List Decl) (fuel : Nat), validDecls ds = true →
    (declLinesAll ds).length ≤ fuel →
    parseDeclListAux fuel (declLinesAll ds) = some ds := by
  intro ds
  induction ds with
  | nil =>
      intro fuel _ _
      cases fuel <;> rfl
  | cons d ds ih =>
      intro fuel hv hlen
      rw [validDecls, List.all_cons, Bool.and_eq_true] at hv
      obtain ⟨header, body, hlines, hne, hind, hblock⟩ := decl_lines_shape d hv.1
      have hshape : declLinesAll (d :: ds) = header :: (body ++ [] :: declLinesAll ds) := by
        rw [declLinesAll_cons, hlines]
        simp
      rw [hshape] at hlen ⊢
      cases fuel with
      | zero => simp at hlen
      | succ fu =>
          rw [parseDeclListAux_cons, if_neg (by rw [hne]; intro hc; cases hc)]
          have hsplit := @takeWhile_append_gen _ startsIndent body ([] :: declLinesAll ds)
            hind (by intro x xs hEq; injection hEq with h1 _; rw [← h1]; rfl)
          rw [hsplit.1, hsplit.2, hblock]
          have hlen2 : (declLinesAll ds).length ≤ fu - 1 := by
            simp only [List.length_cons, List.length_append] at hlen
            omega
          cases fu with
          | zero =>
              simp only [List.length_cons, List.length_append] at hlen
              omega
          | succ fu2 =>
              have hstep : parseDeclListAux (fu2 + 1) ([] :: declLinesAll ds) =
                  parseDeclListAux fu2 (declLinesAll ds) := rfl
              rw [hstep, ih fu2 hv.2 (by omega)]

/-! Line-splitting lemmas. -/

theorem splitLines_cons (c : Char) (rest : List Char) :
    splitLines (c :: rest) =
      if c = '\n' then [] :: splitLines rest
      else
        match splitLines rest with
        | seg :: segs => (c :: seg) :: segs
        | [] => [[c]] := rfl

theorem splitLines_ne_nil (l : List Char) : splitLines l ≠ [] := by
  cases l with
  | nil => intro h; cases h
  | cons c rest =>
      rw [splitLines_cons]
      by_cases hc : c = '\n'
      · rw [if_pos hc]; intro h; cases h
      · rw [if_neg hc]
        cases splitLines rest with
        | nil => intro h; cases h
        | cons seg segs => intro h; cases h

theorem splitLines_nl_append {nf : List Char} (h : nlFree nf = true) (rest : List Char) :
    splitLines (nf ++ '\n' :: rest) = nf :: splitLines rest := by
  induction nf with
  | nil =>
      show splitLines ('\n' :: rest) = [] :: splitLines rest
      rw [splitLines_cons, if_pos rfl]
  | cons c cs ih =>
      rw [nlFree, List.all_cons, Bool.and_eq_true] at h
      have hc : ¬ (c = '\n') := bool_pred_false h.1
      show splitLines (c :: (cs ++ '\n' :: rest)) = (c :: cs) :: splitLines rest
      rw [splitLines_cons, if_neg hc, ih h.2]

theorem joinLines_cons_cons (l l2 : List Char) (ls : List (List Char)) :
    joinLines (l :: l2 :: ls) = l ++ '\n' :: joinLines (l2 :: ls) := rfl

theorem splitLines_join : ∀ (lines : List (List Char)), lines ≠ [] →
    (∀ l ∈ lines, nlFree l = true) → ∀ rest,
    splitLines (joinLines lines ++ '\n' :: rest) = lines ++ splitLines rest := by
  intro lines
  induction lines with
  | nil => intro h; exact absurd rfl h
  | cons l ls ih =>
      intro _ hnl rest
      cases ls with
      | nil =>
          show splitLines (joinLines [l] ++ '\n' :: rest) = [l] ++ splitLines rest
          rw [show joinLines [l] = l from rfl,
            splitLines_nl_append (hnl l (List.mem_cons_self _ _)) rest]
          rfl
      | cons l2 ls2 =>
          rw [joinLines_cons_cons, List.append_assoc, List.cons_append,
            splitLines_nl_append (hnl l (List.mem_cons_self _ _)),
            ih (by intro h; cases h) (fun q hq => hnl q (List.mem_cons_of_mem _ hq)) rest]
          rfl

theorem dropLast_append_ne {α : Type} {b : List α} (h : b ≠ []) :
    ∀ (a : List α), (a ++ b).dropLast = a ++ b.dropLast := by
  intro a
  induction a with
  | nil => rfl
  | cons x xs ih =>
      cases hxb : xs ++ b with
      | nil =>
          rcases List.append_eq_nil.mp hxb with ⟨_, hb⟩
          exact absurd hb h
      | cons y ys =>
          show (x :: (xs ++ b)).dropLast = x :: (xs ++ b.dropLast)
          rw [hxb, show (x :: y :: ys).dropLast = x :: (y :: ys).dropLast from rfl, ← hxb, ih]

theorem concatDecls_cons (d : Decl) (ds : List Decl) :
    concatDecls (d :: ds) = (d.chars ++ "\n\n".data) ++ concatDecls ds := by
  unfold concatDecls
  rw [List.map_cons, List.flatten_cons]

theorem concatDecls_ne_nil (d : Decl) (ds : List Decl) : concatDecls (d :: ds) ≠ [] := by
  rw [concatDecls_cons]
  intro h
  rcases List.append_eq_nil.mp h with ⟨h1, _⟩
  rcases List.append_eq_nil.mp h1 with ⟨_, h2⟩
  cases h2

theorem splitLines_concatDecls : ∀ (ds : List Decl), ds ≠ [] →
    (∀ d ∈ ds, d.lines ≠ [] ∧ ∀ l ∈ d.lines, nlFree l = true) →
    splitLines ((concatDecls ds).dropLast) = declLinesAll ds := by
  intro ds
  induction ds with
  | nil => intro h; exact absurd rfl h
  | cons d ds ih =>
      intro _ hprops
      obtain ⟨hdne, hdnl⟩ := hprops d (List.mem_cons_self _ _)
      cases ds with
      | nil =>
          rw [concatDecls_cons]
          rw [show concatDecls [] = [] from rfl, List.append_nil]
          rw [show ("\n\n" : String).data = ['\n', '\n'] from rfl]
          rw [dropLast_append_ne (by intro h; cases h) d.chars]
          rw [show (['\n', '\n'] : List Char).dropLast = ['\n'] from rfl]
          rw [show d.chars = joinLines d.lines from rfl]
          rw [show (['\n'] : List Char) = '\n' :: [] from rfl]
          rw [splitLines_join d.lines hdne hdnl []]
          simp only [declLinesAll_cons, List.append_assoc, List.append_nil,
            List.append_cancel_left_eq]
          rfl
      | cons d2 ds2 =>
          rw [concatDecls_cons, List.append_assoc]
          rw [dropLast_append_ne ?hne d.chars]
          case hne =>
            intro h
            rcases List.append_eq_nil.mp h with ⟨_, h2⟩
            exact concatDecls_ne_nil d2 ds2 h2
          rw [show ("\n\n" : String).data = ['\n', '\n'] from rfl]
          rw [dropLast_append_ne (concatDecls_ne_nil d2 ds2) ['\n', '\n']]
          rw [show (['\n', '\n'] ++ (concatDecls (d2 :: ds2)).dropLast) =
            '\n' :: ('\n' :: (concatDecls (d2 :: ds2)).dropLast) from rfl]
          rw [show d.chars = joinLines d.lines from rfl]
          rw [splitLines_join d.lines hdne hdnl]
          rw [splitLines_cons, if_pos rfl]
          rw [ih (by intro h; cases h) (fun q hq => hprops q (List.mem_cons_of_mem _ hq))]
          simp [declLinesAll_cons]

/-! Newline-freedom of rendered lines. -/

theorem nlFree_append (a b : List Char) : nlFree (a ++ b) = (nlFree a && nlFree b) := by
  simp [nlFree, List.all_append]

theorem identChar_not_nl {c : Char} (h : identChar c = true) : ¬ (c = '\n') := by
  intro hEq
  subst hEq
  simp [identChar] at h

theorem validIdent_nlFree {s : Identifier} (h : validIdent s = true) : nlFree s.data = true := by
  rw [nlFree, List.all_eq_true]
  intro c hc
  have := identChar_not_nl (List.all_eq_true.mp (validIdent_all_identChar h) c hc)
  simp [this]

theorem okName_nlFree {s : Identifier} (h : okName s = true) : nlFree s.data = true := by
  rw [okName, Bool.and_eq_true] at h
  exact validIdent_nlFree h.1

theorem natChars_nlFree (n : Nat) : nlFree (natChars n) = true := by
  rw [nlFree, List.all_eq_true]
  intro c hc
  have hd := List.all_eq_true.mp (natChars_all_digits n) c hc
  have : ¬ (c = '\n') := by
    intro hEq
    subst hEq
    simp [Char.isDigit] at hd
  simp [this]

theorem kindName_nlFree (k : LiteralType) : nlFree k.kindName.data = true := by
  cases k <;> decide

theorem ptText_nlFree {pt : PlaintextType} (h : validPT pt = true) :
    nlFree pt.text.data = true := by
  cases pt with
  | literal k => exact kindName_nlFree k
  | interface id => exact okName_nlFree h

theorem vtText_nlFree {vt : ValueType} (h : validVT vt = true) : nlFree vt.text.data = true := by
  cases vt with
  | constant pt =>
      rw [show ValueType.text (.constant pt) = pt.text ++ ".constant" from rfl,
        String.data_append, nlFree_append, ptText_nlFree h]
      decide
  | publicT pt =>
      rw [show ValueType.text (.publicT pt) = pt.text ++ ".public" from rfl,
        String.data_append, nlFree_append, ptText_nlFree h]
      decide
  | privateT pt =>
      rw [show ValueType.text (.privateT pt) = pt.text ++ ".private" from rfl,
        String.data_append, nlFree_append, ptText_nlFree h]
      decide
  | record id =>
      rw [show ValueType.text (.record id) = id ++ ".record" from rfl,
        String.data_append, nlFree_append, okName_nlFree h]
      decide

theorem etText_nlFree {et : EntryType} (h : validPT et.inner = true) :
    nlFree et.text.data = true := by
  cases et with
  | constant pt =>
      have h' : validPT pt = true := h
      rw [show EntryType.text (.constant pt) = pt.text ++ ".constant" from rfl,
        String.data_append, nlFree_append, ptText_nlFree h']
      decide
  | publicT pt =>
      have h' : validPT pt = true := h
      rw [show EntryType.text (.publicT pt) = pt.text ++ ".public" from rfl,
        String.data_append, nlFree_append, ptText_nlFree h']
      decide
  | privateT pt =>
      have h' : validPT pt = true := h
      rw [show EntryType.text (.privateT pt) = pt.text ++ ".private" from rfl,
        String.data_append, nlFree_append, ptText_nlFree h']
      decide

theorem register_chars_nlFree {r : Register} (h : validReg r = true) :
    nlFree r.chars = true := by
  cases r with
  | locator n =>
      show nlFree ('r' :: natChars n) = true
      rw [nlFree, List.all_cons, ← nlFree, natChars_nlFree n]
      decide
  | member n path =>
      rw [validReg, Bool.and_eq_true] at h
      show nlFree ('r' :: (natChars n ++ (path.map (fun f => '.' :: f.data)).flatten)) = true
      rw [nlFree, List.all_cons, ← nlFree, nlFree_append, natChars_nlFree n]
      have hpath : nlFree (path.map (fun f => '.' :: f.data)).flatten = true := by
        rw [nlFree, List.all_eq_true]
        intro c hc
        rw [List.mem_flatten] at hc
        obtain ⟨piece, hpiece, hcp⟩ := hc
        obtain ⟨f, hf, hfp⟩ := List.mem_map.mp hpiece
        have hok := List.all_eq_true.mp h.2 f hf
        rw [← hfp] at hcp
        rcases List.mem_cons.mp hcp with hcp | hcp
        · subst hcp; decide
        · exact List.all_eq_true.mp (okName_nlFree hok) c hcp
      rw [hpath]
      decide

theorem operand_chars_nlFree {op : Operand} (h : validOperand op = true) :
    nlFree op.chars = true := by
  cases op with
  | literal l =>
      cases l with
      | boolean b => cases b <;> decide
      | num k n =>
          show nlFree (natChars n ++ k.kindName.data) = true
          rw [nlFree_append, natChars_nlFree n, kindName_nlFree k]
          rfl
  | register r => exact register_chars_nlFree h

theorem decl_lines_nlFree {d : Decl} (h : validDecl d = true) :
    ∀ l ∈ d.lines, nlFree l = true := by
  cases d with
  | interface i =>
      rw [validDecl, Bool.and_eq_true] at h
      intro l hl
      rcases List.mem_cons.mp hl with hl | hl
      · subst hl
        rw [List.append_assoc, nlFree_append, nlFree_append, okName_nlFree h.1]
        decide
      · obtain ⟨pr, hpr, hprl⟩ := List.mem_map.mp hl
        have hpr' := List.all_eq_true.mp h.2 pr hpr
        rw [Bool.and_eq_true] at hpr'
        subst hprl
        show nlFree ("    ".data ++ pr.1.data ++ " as ".data ++ pr.2.text.data ++ ";".data) = true
        rw [nlFree_append, nlFree_append, nlFree_append, nlFree_append,
          okName_nlFree hpr'.1, ptText_nlFree hpr'.2]
        decide
  | record r =>
      rw [validDecl, Bool.and_eq_true] at h
      intro l hl
      rcases List.mem_cons.mp hl with hl | hl
      · subst hl
        rw [List.append_assoc, nlFree_append, nlFree_append, okName_nlFree h.1]
        decide
      · obtain ⟨pr, hpr, hprl⟩ := List.mem_map.mp hl
        have hpr' := List.all_eq_true.mp h.2 pr hpr
        rw [Bool.and_eq_true] at hpr'
        subst hprl
        show nlFree ("    ".data ++ pr.1.data ++ " as ".data ++ pr.2.text.data ++ ";".data) = true
        rw [nlFree_append, nlFree_append, nlFree_append, nlFree_append,
          okName_nlFree hpr'.1, etText_nlFree hpr'.2]
        decide
  | function f =>
      rw [validDecl, Bool.and_eq_true, Bool.and_eq_true, Bool.and_eq_true] at h
      obtain ⟨⟨⟨hn, hin⟩, hinstr⟩, hout⟩ := h
      intro l hl
      rcases List.mem_cons.mp hl with hl | hl
      · subst hl
        rw [List.append_assoc, nlFree_append, nlFree_append, okName_nlFree hn]
        decide
      · rcases List.mem_append.mp hl with hl | hl
        · rcases List.mem_append.mp hl with hl | hl
          · obtain ⟨pr, hpr, hprl⟩ := List.mem_map.mp hl
            have hpr' := List.all_eq_true.mp hin pr hpr
            rw [Bool.and_eq_true] at hpr'
            subst hprl
            show nlFree
              ("    input ".data ++ pr.1.chars ++ " as ".data ++ pr.2.text.data ++ ";".data) = true
            rw [nlFree_append, nlFree_append, nlFree_append, nlFree_append,
              register_chars_nlFree hpr'.1, vtText_nlFree hpr'.2]
            decide
          · obtain ⟨i, hi, hil⟩ := List.mem_map.mp hl
            have hi' := List.all_eq_true.mp hinstr i hi
            subst hil
            cases i with
            | add a b dd =>
                rw [validInstr, Bool.and_eq_true, Bool.and_eq_true] at hi'
                show nlFree ("    add ".data ++ a.chars ++ " ".data ++ b.chars ++
                  " into ".data ++ dd.chars ++ ";".data) = true
                rw [nlFree_append, nlFree_append, nlFree_append, nlFree_append,
                  nlFree_append, nlFree_append, operand_chars_nlFree hi'.1.1,
                  operand_chars_nlFree hi'.1.2, register_chars_nlFree hi'.2]
                decide
        · obtain ⟨pr, hpr, hprl⟩ := List.mem_map.mp hl
          have hpr' := List.all_eq_true.mp hout pr hpr
          rw [Bool.and_eq_true] at hpr'
          subst hprl
          show nlFree
            ("    output ".data ++ pr.1.chars ++ " as ".data ++ pr.2.text.data ++ ";".data) = true
          rw [nlFree_append, nlFree_append, nlFree_append, nlFree_append,
            register_chars_nlFree hpr'.1, vtText_nlFree hpr'.2]
          decide

theorem decl_lines_ne_nil (d : Decl) : d.lines ≠ [] := by
  cases d <;> intro h <;> cases h

/-! Builder-side round-trip lemmas. -/

theorem containsIM_mono_append {α : Type} {m ext : List (Identifier × α)} {k : Identifier}
    (h : containsIM m k = true) : containsIM (m ++ ext) k = true := by
  obtain ⟨v, hv⟩ := containsIM_exists h
  rw [containsIM, lookupIM_append_left hv]
  rfl

theorem add_interface_ok_inversion {p : Program} {i : Interface} {u : Unit} {p' : Program}
    (h : p.add_interface i = (.ok u, p')) :
    containsIM p.identifiers i.name = false ∧ is_reserved_name i.name = false ∧
    checkInterfaceMembers p i.members = none := by
  by_cases h1 : containsIM p.identifiers i.name = true
  · exfalso
    unfold Program.add_interface at h
    simp [Program.is_unique_name, h1] at h
  · rw [Bool.not_eq_true] at h1
    by_cases h2 : is_reserved_name i.name = true
    · exfalso
      unfold Program.add_interface at h
      simp [Program.is_unique_name, h1, h2] at h
    · rw [Bool.not_eq_true] at h2
      cases h3 : checkInterfaceMembers p i.members with
      | some msg =>
          exfalso
          unfold Program.add_interface at h
          simp [Program.is_unique_name, h1, h2, h3] at h
      | none => exact ⟨h1, h2, rfl⟩

theorem add_record_ok_inversion {p : Program} {r : RecordType} {u : Unit} {p' : Program}
    (h : p.add_record r = (.ok u, p')) :
    containsIM p.identifiers r.name = false ∧ is_reserved_name r.name = false ∧
    checkRecordEntries p r.entries = none := by
  by_cases h1 : containsIM p.identifiers r.name = true
  · exfalso
    unfold Program.add_record at h
    simp [Program.is_unique_name, h1] at h
  · rw [Bool.not_eq_true] at h1
    by_cases h2 : is_reserved_name r.name = true
    · exfalso
      unfold Program.add_record at h
      simp [Program.is_unique_name, h1, h2] at h
    · rw [Bool.not_eq_true] at h2
      cases h3 : checkRecordEntries p r.entries with
      | some msg =>
          exfalso
          unfold Program.add_record at h
          simp [Program.is_unique_name, h1, h2, h3] at h
      | none => exact ⟨h1, h2, rfl⟩

theorem add_function_ok_inversion {p : Program} {f : FunctionDef} {u : Unit} {p' : Program}
    {diags : List String} (h : p.add_function f = ((.ok u, p'), diags)) :
    containsIM p.identifiers f.name = false ∧ is_reserved_name f.name = false ∧
    ∃ rts1 rts2 rts3, addInputs p RegisterTypes.new f.inputs = .ok rts1 ∧
      addInstructions p rts1 f.instructions = .ok rts2 ∧
      addOutputs p rts2 [] f.outputs = (.ok rts3, diags) := by
  by_cases h1 : containsIM p.identifiers f.name = true
  · exfalso
    unfold Program.add_function at h
    simp [Program.is_unique_name, h1] at h
  · rw [Bool.not_eq_true] at h1
    by_cases h2 : is_reserved_name f.name = true
    · exfalso
      unfold Program.add_function at h
      simp [Program.is_unique_name, h1, h2] at h
    · rw [Bool.not_eq_true] at h2
      cases hin : addInputs p RegisterTypes.new f.inputs with
      | error msg =>
          exfalso
          unfold Program.add_function at h
          simp [Program.is_unique_name, h1, h2, hin] at h
      | ok rts1 =>
          cases hins : addInstructions p rts1 f.instructions with
          | error msg =>
              exfalso
              unfold Program.add_function at h
              simp [Program.is_unique_name, h1, h2, hin, hins] at h
          | ok rts2 =>
              rcases hout : addOutputs p rts2 [] f.outputs with ⟨res3, diags'⟩
              cases res3 with
              | error msg =>
                  exfalso
                  unfold Program.add_function at h
                  simp [Program.is_unique_name, h1, h2, hin, hins, hout] at h
              | ok rts3 =>
                  refine ⟨h1, h2, rts1, rts2, rts3, rfl, hins, ?_⟩
                  have hd : diags' = diags := by
                    unfold Program.add_function at h
                    simp only [Program.is_unique_name, h1, h2, hin, hins, hout,
                      Bool.not_false, Bool.not_true, if_false, Bool.false_eq_true, if_true] at h
                    rw [insertIM_not_contains h1] at h
                    simp only [Option.isSome_none, Bool.false_eq_true, if_false] at h
                    rcases hi2 : insertIM p.functions f.name f with ⟨old2, fns⟩
                    rw [hi2] at h
                    cases old2 with
                    | some w => simp at h
                    | none =>
                        simp only [Option.isSome_none, Bool.false_eq_true, if_false] at h
                        rcases hi3 : insertIM p.function_registers f.name rts3 with ⟨old3, frs⟩
                        rw [hi3] at h
                        cases old3 with
                        | some w => simp at h
                        | none =>
                            simp only [Option.isSome_none, Bool.false_eq_true, if_false,
                              Prod.mk.injEq] at h
                            exact h.2
                  rw [hout, hd]

theorem declsOfAux_extend {p p' : Program}
    (hi : ∀ k v, lookupIM p.interfaces k = some v → lookupIM p'.interfaces k = some v)
    (hr : ∀ k v, lookupIM p.records k = some v → lookupIM p'.records k = some v)
    (hf : ∀ k v, lookupIM p.functions k = some v → lookupIM p'.functions k = some v) :
    ∀ ids, resolvesAux p ids = true → declsOfAux p' ids = declsOfAux p ids := by
  intro ids
  induction ids with
  | nil => intro _; rfl
  | cons pr rest ih =>
      intro hall
      rw [resolvesAux, List.all_cons, Bool.and_eq_true] at hall
      obtain ⟨hhead, htail⟩ := hall
      obtain ⟨id, tag⟩ := pr
      unfold declsOfAux
      rw [List.filterMap_cons, List.filterMap_cons]
      have htl := ih htail
      unfold declsOfAux at htl
      rw [htl]
      cases tag with
      | interface =>
          obtain ⟨v, hv⟩ := containsIM_exists (by simpa using hhead)
          rw [hv, hi id v hv]
      | record =>
          obtain ⟨v, hv⟩ := containsIM_exists (by simpa using hhead)
          rw [hv, hr id v hv]
      | function =>
          obtain ⟨v, hv⟩ := containsIM_exists (by simpa using hhead)
          rw [hv, hf id v hv]

theorem allKeys_mono {α β : Type} {m : List (Identifier × α)} {ids : List (Identifier × β)}
    {ext : List (Identifier × β)}
    (h : m.all (fun pr => containsIM ids pr.1) = true) :
    m.all (fun pr => containsIM (ids ++ ext) pr.1) = true := by
  rw [List.all_eq_true] at h ⊢
  intro x hx
  exact containsIM_mono_append (h x hx)

theorem containsIM_self_append {α : Type} (m : List (Identifier × α)) (k : Identifier) (v : α) :
    containsIM (m ++ [(k, v)]) k = true := by
  rw [containsIM_append_one]
  simp

theorem build_invariant_interface {p : Program} {i : Interface} {p' : Program}
    (hwf : p.wf = true) (hres : p.resolves = true)
    (h : p.add_interface i = (.ok (), p')) :
    p'.wf = true ∧ p'.resolves = true ∧ p'.declsOf = p.declsOf ++ [.interface i] := by
  obtain ⟨h1, h2, h3⟩ := add_interface_ok_inversion h
  have h4 := (wf_map_not_contains p hwf h1).1
  rw [add_interface_success p i h1 h2 h3 h4] at h
  have hp' : p' = ⟨p.identifiers ++ [(i.name, .interface)], p.interfaces ++ [(i.name, i)],
      p.records, p.functions, p.function_registers⟩ := by
    injection h with _ h'
    exact h'.symm
  subst hp'
  refine ⟨?_, ?_, ?_⟩
  · rw [Program.wf] at hwf ⊢
    simp only [Bool.and_eq_true] at hwf ⊢
    obtain ⟨⟨⟨w1, w2⟩, w3⟩, w4⟩ := hwf
    refine ⟨⟨⟨?_, allKeys_mono w2⟩, allKeys_mono w3⟩, allKeys_mono w4⟩
    rw [List.all_append, allKeys_mono w1]
    simp only [Bool.true_and, List.all_cons, List.all_nil, Bool.and_true]
    exact containsIM_self_append _ _ _
  · rw [Program.resolves] at hres ⊢
    simp only [resolvesAux] at hres ⊢
    rw [List.all_append, Bool.and_eq_true]
    constructor
    · rw [List.all_eq_true] at hres ⊢
      intro x hx
      have := hres x hx
      obtain ⟨k, tag⟩ := x
      cases tag with
      | interface => exact containsIM_mono_append this
      | record => exact this
      | function => exact this
    · rw [List.all_eq_true]
      intro x hx
      rcases List.mem_cons.mp hx with hx | hx
      · subst hx
        exact containsIM_self_append _ _ _
      · cases hx
  · show declsOfAux _ (p.identifiers ++ [(i.name, .interface)]) = _
    rw [declsOfAux, List.filterMap_append]
    have hext := @declsOfAux_extend p
      ⟨p.identifiers ++ [(i.name, .interface)], p.interfaces ++ [(i.name, i)],
        p.records, p.functions, p.function_registers⟩
      (fun k v hv => lookupIM_append_left hv) (fun k v hv => hv) (fun k v hv => hv)
      p.identifiers hres
    rw [declsOfAux] at hext
    rw [hext]
    rw [show Program.declsOf p = declsOfAux p p.identifiers from rfl, declsOfAux]
    congr 1
    rw [List.filterMap_cons]
    simp only
    rw [lookupIM_append_right h4]
    rfl

theorem build_invariant_record {p : Program} {r : RecordType} {p' : Program}
    (hwf : p.wf = true) (hres : p.resolves = true)
    (h : p.add_record r = (.ok (), p')) :
    p'.wf = true ∧ p'.resolves = true ∧ p'.declsOf = p.declsOf ++ [.record r] := by
  obtain ⟨h1, h2, h3⟩ := add_record_ok_inversion h
  have h4 := (wf_map_not_contains p hwf h1).2.1
  rw [add_record_success p r h1 h2 h3 h4] at h
  have hp' : p' = ⟨p.identifiers ++ [(r.name, .record)], p.interfaces,
      p.records ++ [(r.name, r)], p.functions, p.function_registers⟩ := by
    injection h with _ h'
    exact h'.symm
  subst hp'
  refine ⟨?_, ?_, ?_⟩
  · rw [Program.wf] at hwf ⊢
    simp only [Bool.and_eq_true] at hwf ⊢
    obtain ⟨⟨⟨w1, w2⟩, w3⟩, w4⟩ := hwf
    refine ⟨⟨⟨allKeys_mono w1, ?_⟩, allKeys_mono w3⟩, allKeys_mono w4⟩
    rw [List.all_append, allKeys_mono w2]
    simp only [Bool.true_and, List.all_cons, List.all_nil, Bool.and_true]
    exact containsIM_self_append _ _ _
  · rw [Program.resolves] at hres ⊢
    simp only [resolvesAux] at hres ⊢
    rw [List.all_append, Bool.and_eq_true]
    constructor
    · rw [List.all_eq_true] at hres ⊢
      intro x hx
      have := hres x hx
      obtain ⟨k, tag⟩ := x
      cases tag with
      | interface => exact this
      | record => exact containsIM_mono_append this
      | function => exact this
    · rw [List.all_eq_true]
      intro x hx
      rcases List.mem_cons.mp hx with hx | hx
      · subst hx
        exact containsIM_self_append _ _ _
      · cases hx
  · show declsOfAux _ (p.identifiers ++ [(r.name, .record)]) = _
    rw [declsOfAux, List.filterMap_append]
    have hext := @declsOfAux_extend p
      ⟨p.identifiers ++ [(r.name, .record)], p.interfaces,
        p.records ++ [(r.name, r)], p.functions, p.function_registers⟩
      (fun k v hv => hv) (fun k v hv => lookupIM_append_left hv) (fun k v hv => hv)
      p.identifiers hres
    rw [declsOfAux] at hext
    rw [hext]
    rw [show Program.declsOf p = declsOfAux p p.identifiers from rfl, declsOfAux]
    congr 1
    rw [List.filterMap_cons]
    simp only
    rw [lookupIM_append_right h4]
    rfl

theorem build_invariant_function {p : Program} {f : FunctionDef} {p' : Program}
    {diags : List String} (hwf : p.wf = true) (hres : p.resolves = true)
    (h : p.add_function f = ((.ok (), p'), diags)) :
    p'.wf = true ∧ p'.resolves = true ∧ p'.declsOf = p.declsOf ++ [.function f] := by
  obtain ⟨h1, h2, rts1, rts2, rts3, hin, hins, hout⟩ := add_function_ok_inversion h
  have h4 := (wf_map_not_contains p hwf h1).2.2.1
  have h5 := (wf_map_not_contains p hwf h1).2.2.2
  rw [add_function_success p f rts1 rts2 rts3 diags h1 h2 hin hins hout h4 h5] at h
  have hp' : p' = ⟨p.identifiers ++ [(f.name, .function)], p.interfaces, p.records,
      p.functions ++ [(f.name, f)], p.function_registers ++ [(f.name, rts3)]⟩ := by
    injection h with h' _
    injection h' with _ h''
    exact h''.symm
  subst hp'
  refine ⟨?_, ?_, ?_⟩
  · rw [Program.wf] at hwf ⊢
    simp only [Bool.and_eq_true] at hwf ⊢
    obtain ⟨⟨⟨w1, w2⟩, w3⟩, w4⟩ := hwf
    refine ⟨⟨⟨allKeys_mono w1, allKeys_mono w2⟩, ?_⟩, ?_⟩
    · rw [List.all_append, allKeys_mono w3]
      simp only [Bool.true_and, List.all_cons, List.all_nil, Bool.and_true]
      exact containsIM_self_append _ _ _
    · rw [List.all_append, allKeys_mono w4]
      simp only [Bool.true_and, List.all_cons, List.all_nil, Bool.and_true]
      exact containsIM_self_append _ _ _
  · rw [Program.resolves] at hres ⊢
    simp only [resolvesAux] at hres ⊢
    rw [List.all_append, Bool.and_eq_true]
    constructor
    · rw [List.all_eq_true] at hres ⊢
      intro x hx
      have := hres x hx
      obtain ⟨k, tag⟩ := x
      cases tag with
      | interface => exact this
      | record => exact this
      | function => exact containsIM_mono_append this
    · rw [List.all_eq_true]
      intro x hx
      rcases List.mem_cons.mp hx with hx | hx
      · subst hx
        exact containsIM_self_append _ _ _
      · cases hx
  · show declsOfAux _ (p.identifiers ++ [(f.name, .function)]) = _
    rw [declsOfAux, List.filterMap_append]
    have hext := @declsOfAux_extend p
      ⟨p.identifiers ++ [(f.name, .function)], p.interfaces, p.records,
        p.functions ++ [(f.name, f)], p.function_registers ++ [(f.name, rts3)]⟩
      (fun k v hv => hv) (fun k v hv => hv) (fun k v hv => lookupIM_append_left hv)
      p.identifiers hres
    rw [declsOfAux] at hext
    rw [hext]
    rw [show Program.declsOf p = declsOfAux p p.identifiers from rfl, declsOfAux]
    congr 1
    rw [List.filterMap_cons]
    simp only
    rw [lookupIM_append_right h4]
    rfl

theorem buildAux_invariant : ∀ (ds : List Decl) (p0 p : Program), p0.wf = true →
    p0.resolves = true → buildAux p0 ds = .ok p →
    p.wf = true ∧ p.resolves = true ∧ p.declsOf = p0.declsOf ++ ds := by
  intro ds
  induction ds with
  | nil =>
      intro p0 p hwf hres h
      have hp : p0 = p := by
        injection h with h'
      rw [← hp]
      exact ⟨hwf, hres, by simp⟩
  | cons d ds ih =>
      intro p0 p hwf hres h
      unfold buildAux at h
      cases hd : addDecl p0 d with
      | error e => rw [hd] at h; cases h
      | ok p1 =>
          rw [hd] at h
          have hstep : p1.wf = true ∧ p1.resolves = true ∧ p1.declsOf = p0.declsOf ++ [d] := by
            cases d with
            | interface i =>
                have hd' : (match p0.add_interface i with
                  | (Except.ok _, p') => Except.ok p'
                  | (Except.error e, _) => Except.error e) = Except.ok p1 := hd
                rcases hai : p0.add_interface i with ⟨res, pp⟩
                rw [hai] at hd'
                cases res with
                | error e => cases hd'
                | ok u =>
                    cases u
                    have hpp : pp = p1 := by
                      injection hd'
                    rw [hpp] at hai
                    exact build_invariant_interface hwf hres hai
            | record r =>
                have hd' : (match p0.add_record r with
                  | (Except.ok _, p') => Except.ok p'
                  | (Except.error e, _) => Except.error e) = Except.ok p1 := hd
                rcases hai : p0.add_record r with ⟨res, pp⟩
                rw [hai] at hd'
                cases res with
                | error e => cases hd'
                | ok u =>
                    cases u
                    have hpp : pp = p1 := by
                      injection hd'
                    rw [hpp] at hai
                    exact build_invariant_record hwf hres hai
            | function f =>
                have hd' : (match p0.add_function f with
                  | ((Except.ok _, p'), _) => Except.ok p'
                  | ((Except.error e, _), _) => Except.error e) = Except.ok p1 := hd
                rcases hai : p0.add_function f with ⟨⟨res, pp⟩, diags⟩
                rw [hai] at hd'
                cases res with
                | error e => cases hd'
                | ok u =>
                    cases u
                    have hpp : pp = p1 := by
                      injection hd'
                    rw [hpp] at hai
                    exact build_invariant_function hwf hres hai
          obtain ⟨hw1, hr1, hd1⟩ := hstep
          obtain ⟨hw2, hr2, hd2⟩ := ih p1 p hw1 hr1 h
          refine ⟨hw2, hr2, ?_⟩
          rw [hd2, hd1]
          simp

/-- C8 counterexample: the empty program is well-formed (it passes every
builder check vacuously, being built by zero additions), its display is the
empty string, and parsing that display fails — the parser requires at least
one declaration — so parse ∘ display does not return the program. -/
theorem parse_display_roundtrip_cex :
    Program.wf Program.new = true ∧ Program.resolves Program.new = true ∧
    Program.display Program.new = .ok "" ∧
    parseProgram "" = .error "Failed to parse string." :=
  ⟨rfl, rfl, rfl, rfl⟩

/-- C8 (amended): for every valid program built by at least one successful
declaration addition — equivalently, every well-formed program a successful
parse can produce — displaying the program succeeds and parsing the
displayed text yields the program back. -/
theorem parse_display_roundtrip (ds : List Decl) (p : Program)
    (hvd : validDecls ds = true) (hb : buildProgram ds = .ok p) (hne : ds ≠ []) :
    Program.display p = .ok (String.mk ((concatDecls ds).dropLast)) ∧
    parseProgram (String.mk ((concatDecls ds).dropLast)) = .ok p := by
  obtain ⟨hwf, hres, hdecls⟩ := buildAux_invariant ds Program.new p rfl rfl hb
  have hdecls' : p.declsOf = ds := by
    rw [hdecls]
    rfl
  constructor
  · unfold Program.display
    rw [displayFold_resolves p p.identifiers hres]
    rw [show declsOfAux p p.identifiers = p.declsOf from rfl, hdecls']
  · unfold parseProgram
    rw [show (String.mk ((concatDecls ds).dropLast)).data = (concatDecls ds).dropLast from rfl]
    rw [splitLines_concatDecls ds hne ?props]
    case props =>
      intro d hd
      have hv := List.all_eq_true.mp hvd d hd
      exact ⟨decl_lines_ne_nil d, decl_lines_nlFree hv⟩
    rw [show parseDeclList (declLinesAll ds) =
        parseDeclListAux (declLinesAll ds).length (declLinesAll ds) from rfl]
    rw [parseDeclListAux_decls ds (declLinesAll ds).length hvd (Nat.le_refl _)]
    cases ds with
    | nil => exact absurd rfl hne
    | cons d ds' => exact hb

/-- Witness for the amended C8 theorem at the one-interface sample
program. -/
theorem parse_display_roundtrip_witness :
    validDecls [Decl.interface sampleInterface] = true ∧
    buildProgram [Decl.interface sampleInterface] = .ok sampleProgram ∧
    Program.display sampleProgram =
      .ok (String.mk ((concatDecls [Decl.interface sampleInterface]).dropLast)) ∧
    parseProgram (String.mk ((concatDecls [Decl.interface sampleInterface]).dropLast)) =
      .ok sampleProgram :=
  ⟨by decide, rfl,
    (parse_display_roundtrip [Decl.interface sampleInterface] sampleProgram
      (by decide) rfl (by intro h; cases h)).1,
    (parse_display_roundtrip [Decl.interface sampleInterface] sampleProgram
      (by decide) rfl (by intro h; cases h)).2⟩

end Snark
